import Mathlib

/-!
# ThorVG examples: ray casting, Sierpinski triangle, Mandelbrot set

A shallow embedding of the class `AdvancedRayCaster` and of the parts of
`AdvancedRayCastingExample` that compute with it (`examples/01.MyExample.cpp`),
of `SierpinskiFractal::drawSierpinskiTriangle`
(`examples/03.SierpinskiTriangle.cpp`) and of
`MandelbrotRenderer::mandelbrotIterations` and `iterationsToColor`
(`examples/02.Fractal.cpp`).

Conventions of the embedding.

* The C++ type `float` is embedded twice.  The main embedding idealises it
  as an exact linearly ordered field `α` (no rounding, no infinities, no
  NaN); every such definition is generic in `α`, hence executable at
  `α := ℚ`.  A second embedding of the ray caster, with the suffix `32`,
  evaluates the same source lines in IEEE 754 binary32, every operation being
  rounded to nearest; it shows where a property that holds in the field fails
  in the arithmetic the program runs.
* The `<cmath>` functions `cos`, `sin`, `sqrt` and the constant `M_PI` are
  not part of the repository; they are taken as a parameter `F : Libm α`.
  Theorems state the properties of these functions they rely on as
  hypotheses; closed examples instantiate `α := ℝ` with `Real.cos`,
  `Real.sin`, `Real.sqrt`, `Real.pi`.  In binary32, `sqrt` is the correctly
  rounded square root, `M_PI` is the `double` nearest to `π`, and `cos`, `sin`
  are a parameter `L : Libm32`; closed examples use a table of their values
  at the few arguments met.
* A `for (auto& wall : walls)` loop is a structural recursion over the list.
* The pointer `Wall*` stored in a `RayHit` points into the vector `walls`;
  it is modelled by the index of the element (`none` for `nullptr`).
* A nullable `Point2D*` result together with the out-parameter `distance`
  is an `Option (Point2D α × α)`.
* The loop body of `drawAdvanced3DView` is embedded per column (`drawColumn`):
  it returns the data of the strip pushed on the canvas.  The conversion
  `(uint8_t)(x)` is truncation toward zero followed by reduction modulo `2^8`
  and needs a floor function on `α` (`FloorRing α`).
* Where a property speaks of divisions by zero, a second version of the
  function with checked divisions (`checkedDiv`) is compared with the plain one.
* The recursion of `drawSierpinskiTriangle` and the `while` loop of
  `mandelbrotIterations` are bounded by a `fuel` argument; `none` means that
  the fuel ran out, and the theorems give the fuel that suffices.  The type
  `int` is `Int`, without overflow; `double` is idealised like `float`.  The
  one `float` product of `drawSierpinskiTriangle` that is converted to `int`
  (`colorShift * 1.3f`) is evaluated in binary32.
-/

namespace ThorVG

/-- The functions of `<cmath>` used by the example, as a parameter. -/
structure Libm (α : Type) where
  cos : α → α
  sin : α → α
  sqrt : α → α
  M_PI : α

/-- `struct Point2D { float x, y; }`. -/
structure Point2D (α : Type) where
  x : α
  y : α
deriving DecidableEq, Repr

/-- `struct Wall { Point2D start, end; uint8_t r, g, b; }`
(`end` is a keyword of Lean, the field is called `end_`). -/
structure Wall (α : Type) where
  start : Point2D α
  end_ : Point2D α
  r : Nat
  g : Nat
  b : Nat
deriving DecidableEq, Repr

/-- `struct LightSource { Point2D position; float intensity; uint8_t r, g, b; }`. -/
structure LightSource (α : Type) where
  position : Point2D α
  intensity : α
  r : Nat
  g : Nat
  b : Nat
deriving DecidableEq, Repr

/-- `struct RayHit`; the default value is the one built by `RayHit()`:
`hit(false), wall(nullptr), distance(0)` and the default `Point2D(0, 0)`. -/
structure RayHit (α : Type) where
  point : Point2D α
  distance : α
  wall : Option Nat
  hit : Bool
deriving DecidableEq, Repr

/-- The data members of `class AdvancedRayCaster`. -/
structure AdvancedRayCaster (α : Type) where
  walls : List (Wall α)
  lights : List (LightSource α)
  player : Point2D α
  playerAngle : α
  numRays : Int
  fov : α
  moveSpeed : α
  rotSpeed : α

/-- The data of one wall strip pushed by `drawAdvanced3DView`: the arguments of
`appendRect(stripX, stripY, stripWidth + 1, wallHeight, 0, 0)` and of
`fill(r, g, b)`. -/
structure WallStrip (α : Type) where
  x : α
  y : α
  width : α
  height : α
  r : Nat
  g : Nat
  b : Nat

/-- The shape pushed by `drawSierpinskiTriangle` at depth `0`: the path
`moveTo(a)`, `lineTo(b)`, `lineTo(c)`, `close()` with `fill(r, g, blue, alpha)`.
`SierpinskiFractal::Point` has the members of `Point2D`. -/
structure FilledTriangle (α : Type) where
  a : Point2D α
  b : Point2D α
  c : Point2D α
  r : Nat
  g : Nat
  blue : Nat
  alpha : Nat

/-- A finite `float` value `x` is represented by the integer `x * 2^149`:
every finite binary32 value is an integer multiple of `2^-149`.  A `double`
of magnitude at least `2^-96` is such a multiple too and is represented the
same way. -/
abbrev F32 : Type := Int

/-- The representation of `1.0f`: `2^149`. -/
def f32Scale : Nat := 2 ^ 149

/-- The multiple of `quantum` nearest to `a / q`, ties going to the even
multiple. -/
def roundNat (a q quantum : Nat) : Nat :=
  let d := q * quantum
  let m := a / d
  let r := a % d
  if 2 * r < d then m * quantum
  else if d < 2 * r then (m + 1) * quantum
  else if m % 2 = 0 then m * quantum else (m + 1) * quantum

/-- The largest exponent `e` with `acc ≤ e < acc + 2^steps` and `2^e ≤ k`, for
`2^acc ≤ k`: a binary search on the bits of `e` from the highest down (`acc`
holds the bits fixed so far). -/
def bitLengthAux (k : Nat) : Nat → Nat → Nat
  | 0, acc => acc
  | steps + 1, acc =>
    if 2 ^ (acc + 2 ^ steps) ≤ k then bitLengthAux k steps (acc + 2 ^ steps)
    else bitLengthAux k steps acc

/-- The number of binary digits of `k`, for `k < 2^1024`. -/
def bitLength (k : Nat) : Nat := if k = 0 then 0 else bitLengthAux k 10 0 + 1

/-- The spacing of the values with `prec` significant bits around a magnitude
whose integer part is `k`, in units of `2^-149`; it is `1` in the subnormal
range. -/
def quantumOf (prec k : Nat) : Nat := 2 ^ (bitLength k - prec)

/-- Rounding of the rational `p / q` (in units of `2^-149`) to `prec`
significant bits, to nearest, ties to even. -/
def roundTo (prec : Nat) (p : Int) (q : Nat) : F32 :=
  if p < 0 then
    - (roundNat (-p).toNat q (quantumOf prec ((-p).toNat / q)) : Int)
  else (roundNat p.toNat q (quantumOf prec (p.toNat / q)) : Int)

/-- Rounding to binary32 (24 significant bits). -/
def f32Round (p : Int) (q : Nat) : F32 := roundTo 24 p q

/-- Rounding to binary64 (53 significant bits). -/
def f64Round (p : Int) (q : Nat) : F32 := roundTo 53 p q

/-- The `float` nearest to the rational `p / q`: the value of a literal such
as `0.1f` (`f32OfRat 1 10`). -/
def f32OfRat (p : Int) (q : Nat) : F32 := f32Round (p * (f32Scale : Int)) q

/-- The `double` nearest to the rational `p / q`: the value of a literal such
as `1e-10`. -/
def f64OfRat (p : Int) (q : Nat) : F32 := f64Round (p * (f32Scale : Int)) q

/-- The conversion of an `int` to `float`. -/
def f32OfInt (i : Int) : F32 := f32OfRat i 1

/-- The `float` sum. -/
def f32Add (a b : F32) : F32 := f32Round (a + b) 1

/-- The `float` product. -/
def f32Mul (a b : F32) : F32 := f32Round (a * b) f32Scale

/-- The `float` quotient, for a divisor other than zero (the value `0` given
for a zero divisor is never used). -/
def f32Div (a b : F32) : F32 :=
  if 0 < b then f32Round (a * (f32Scale : Int)) b.toNat
  else if b < 0 then f32Round (-(a * (f32Scale : Int))) (-b).toNat
  else 0

/-- The `double` quotient, for a divisor other than zero. -/
def f64Div (a b : F32) : F32 :=
  if 0 < b then f64Round (a * (f32Scale : Int)) b.toNat
  else if b < 0 then f64Round (-(a * (f32Scale : Int))) (-b).toNat
  else 0

/-- The conversion of a `double` to `float`. -/
def f64ToF32 (a : F32) : F32 := f32Round a 1

/-- The integer square root, by binary search on the bits from `2^(b - 1)`
down: the largest `r` with `r * r ≤ n`. -/
def isqrtAux (n : Nat) : Nat → Nat → Nat
  | 0, r => r
  | b + 1, r =>
    if (r + 2 ^ b) * (r + 2 ^ b) ≤ n then isqrtAux n b (r + 2 ^ b) else isqrtAux n b r

/-- The integer square root of `n`. -/
def isqrt (n : Nat) : Nat := isqrtAux n (bitLength n / 2 + 1) 0

/-- The `float` square root of a value that is not negative: the correctly
rounded root, as `sqrtf` computes it. -/
def f32Sqrt (a : F32) : F32 :=
  let n := a.toNat * f32Scale
  let q := quantumOf 24 (isqrt n)
  let m := isqrt n / q
  if 4 * n < (2 * m + 1) * (2 * m + 1) * (q * q) then ((m * q : Nat) : Int)
  else if (2 * m + 1) * (2 * m + 1) * (q * q) < 4 * n then (((m + 1) * q : Nat) : Int)
  else if m % 2 = 0 then ((m * q : Nat) : Int) else (((m + 1) * q : Nat) : Int)

/-- The conversion `(int)(x)` of a `float`: truncation toward zero. -/
def f32ToInt (a : F32) : Int := Int.tdiv a (f32Scale : Int)

/-- The rational number a `float` or `double` stands for. -/
def F32.toRat (a : F32) : ℚ := (a : ℚ) / 2 ^ 149

/-! ## The examples in exact arithmetic -/

section Defs

variable {α : Type} [LinearOrderedField α]

/-- `std::min(a, b)`: returns `b` when `b < a`, otherwise `a`. -/
def stdMin (a b : α) : α := if b < a then b else a

/-- `std::max(a, b)`: returns `b` when `a < b`, otherwise `a`. -/
def stdMax (a b : α) : α := if a < b then b else a

/-- `std::numeric_limits<float>::max()`, the largest finite binary32 value
`(2^24 - 1) * 2^104`. -/
def FLT_MAX : α := (2 ^ 24 - 1) * 2 ^ 104

/-- The value built by the constructor `RayHit()`. -/
def RayHit.default : RayHit α :=
  { point := ⟨0, 0⟩, distance := 0, wall := none, hit := false }

/-- The constructor `AdvancedRayCaster()`: the built-in scene. -/
def AdvancedRayCaster.new (F : Libm α) : AdvancedRayCaster α :=
  { walls :=
      [ ⟨⟨50, 50⟩, ⟨750, 50⟩, 200, 100, 100⟩,
        ⟨⟨750, 50⟩, ⟨750, 550⟩, 100, 200, 100⟩,
        ⟨⟨750, 550⟩, ⟨50, 550⟩, 100, 100, 200⟩,
        ⟨⟨50, 550⟩, ⟨50, 50⟩, 200, 200, 100⟩,
        ⟨⟨150, 150⟩, ⟨250, 150⟩, 180, 120, 180⟩,
        ⟨⟨250, 150⟩, ⟨250, 250⟩, 180, 120, 180⟩,
        ⟨⟨350, 100⟩, ⟨450, 100⟩, 120, 180, 180⟩,
        ⟨⟨450, 100⟩, ⟨450, 200⟩, 120, 180, 180⟩,
        ⟨⟨550, 150⟩, ⟨650, 150⟩, 180, 180, 120⟩,
        ⟨⟨650, 150⟩, ⟨650, 300⟩, 180, 180, 120⟩,
        ⟨⟨100, 350⟩, ⟨200, 350⟩, 200, 150, 100⟩,
        ⟨⟨200, 350⟩, ⟨200, 450⟩, 200, 150, 100⟩,
        ⟨⟨300, 400⟩, ⟨400, 300⟩, 150, 200, 150⟩,
        ⟨⟨500, 350⟩, ⟨600, 450⟩, 100, 150, 200⟩ ]
    lights :=
      [ ⟨⟨200, 200⟩, 100, 255, 200, 200⟩,
        ⟨⟨600, 200⟩, 80, 200, 200, 255⟩,
        ⟨⟨400, 450⟩, 120, 200, 255, 200⟩ ]
    player := ⟨400, 300⟩
    playerAngle := 0
    numRays := 120
    fov := F.M_PI / 2.5
    moveSpeed := 3
    rotSpeed := 0.08 }

/-! ### `rayWallIntersection` -/

/-- The local `wallDir` of `rayWallIntersection`: `wall.end - wall.start`. -/
def wallDir (wall : Wall α) : Point2D α :=
  ⟨wall.end_.x - wall.start.x, wall.end_.y - wall.start.y⟩

/-- The local `denominator` of `rayWallIntersection`. -/
def denominator (rayDir : Point2D α) (wall : Wall α) : α :=
  rayDir.x * (wallDir wall).y - rayDir.y * (wallDir wall).x

/-- The local `t` of `rayWallIntersection` (parameter along the ray). -/
def rayT (rayStart rayDir : Point2D α) (wall : Wall α) : α :=
  ((wall.start.x - rayStart.x) * (wallDir wall).y
    - (wall.start.y - rayStart.y) * (wallDir wall).x) / denominator rayDir wall

/-- The local `u` of `rayWallIntersection` (parameter along the wall). -/
def rayU (rayStart rayDir : Point2D α) (wall : Wall α) : α :=
  ((wall.start.x - rayStart.x) * rayDir.y
    - (wall.start.y - rayStart.y) * rayDir.x) / denominator rayDir wall

/-- `AdvancedRayCaster::rayWallIntersection`.  `abs` is the floating-point
absolute value `std::abs` (the specification speaks of the absolute value of
the determinant).  The result `some (p, d)` stands for a non-null pointer to
`p` with the out-parameter `distance` set to `d`; `none` stands for
`nullptr` (the out-parameter is then not written). -/
def rayWallIntersection (rayStart rayDir : Point2D α) (wall : Wall α) :
    Option (Point2D α × α) :=
  if |denominator rayDir wall| < 1e-10 then none
  else
    let t := rayT rayStart rayDir wall
    let u := rayU rayStart rayDir wall
    if t > 0 ∧ u ≥ 0 ∧ u ≤ 1 then
      some (⟨rayStart.x + t * rayDir.x, rayStart.y + t * rayDir.y⟩, t)
    else none

/-! ### `castRay` -/

/-- The body of the loop of `castRay`, run over the walls from index `i` on.
The state is the pair `(result, minDistance)`. -/
def castRayLoop (player rayDir : Point2D α) :
    List (Wall α) → Nat → RayHit α × α → RayHit α × α
  | [], _, st => st
  | wall :: rest, i, st =>
    match rayWallIntersection player rayDir wall with
    | some (p, distance) =>
      if distance < st.2 then
        castRayLoop player rayDir rest (i + 1)
          ({ point := p, distance := distance, wall := some i, hit := true }, distance)
      else castRayLoop player rayDir rest (i + 1) st
    | none => castRayLoop player rayDir rest (i + 1) st

/-- `AdvancedRayCaster::castRay`. -/
def castRay (F : Libm α) (rc : AdvancedRayCaster α) (angle : α) : RayHit α :=
  let rayDir : Point2D α := ⟨F.cos angle, F.sin angle⟩
  (castRayLoop rc.player rayDir rc.walls 0 (RayHit.default, FLT_MAX)).1

/-! ### `calculateLighting` -/

/-- The local `distance` of the loop of `calculateLighting`. -/
def lightDistance (F : Libm α) (point : Point2D α) (light : LightSource α) : α :=
  let dx := light.position.x - point.x
  let dy := light.position.y - point.y
  F.sqrt (dx * dx + dy * dy)

/-- One iteration of the loop of `calculateLighting` on `totalLight`. -/
def lightingStep (F : Libm α) (point : Point2D α) (totalLight : α)
    (light : LightSource α) : α :=
  let distance := lightDistance F point light
  if distance > 0 then
    let lightContribution := light.intensity / (distance * 0.01 + 1)
    totalLight + lightContribution * 0.01
  else totalLight

/-- `AdvancedRayCaster::calculateLighting`. -/
def calculateLighting (F : Libm α) (rc : AdvancedRayCaster α) (point : Point2D α) : α :=
  stdMin 1 (rc.lights.foldl (lightingStep F point) 0.1)

/-! ### `checkCollision` and `updatePlayer` -/

/-- The local `length` of the loop of `checkCollision`. -/
def wallLength (F : Libm α) (wall : Wall α) : α :=
  let dx := wall.end_.x - wall.start.x
  let dy := wall.end_.y - wall.start.y
  F.sqrt (dx * dx + dy * dy)

/-- The local `t` of the loop of `checkCollision`: the clamped projection
parameter of `pos` on the wall. -/
def projT (F : Libm α) (pos : Point2D α) (wall : Wall α) : α :=
  let dx := wall.end_.x - wall.start.x
  let dy := wall.end_.y - wall.start.y
  let length := wallLength F wall
  stdMax 0 (stdMin 1
    (((pos.x - wall.start.x) * dx + (pos.y - wall.start.y) * dy) / (length * length)))

/-- The locals `(projX, projY)` of the loop of `checkCollision`. -/
def projPoint (F : Libm α) (pos : Point2D α) (wall : Wall α) : Point2D α :=
  let dx := wall.end_.x - wall.start.x
  let dy := wall.end_.y - wall.start.y
  let t := projT F pos wall
  ⟨wall.start.x + t * dx, wall.start.y + t * dy⟩

/-- The local `distSq` of the loop of `checkCollision`. -/
def distSq (F : Libm α) (pos : Point2D α) (wall : Wall α) : α :=
  let proj := projPoint F pos wall
  (pos.x - proj.x) * (pos.x - proj.x) + (pos.y - proj.y) * (pos.y - proj.y)

/-- The loop of `checkCollision` over a list of walls. -/
def checkCollisionLoop (F : Libm α) (pos : Point2D α) : List (Wall α) → Bool
  | [] => false
  | wall :: rest =>
    if wallLength F wall = 0 then checkCollisionLoop F pos rest
    else if distSq F pos wall < 15 * 15 then true
    else checkCollisionLoop F pos rest

/-- `AdvancedRayCaster::checkCollision`. -/
def checkCollision (F : Libm α) (rc : AdvancedRayCaster α) (pos : Point2D α) : Bool :=
  checkCollisionLoop F pos rc.walls

/-- The candidate position `newPos` of `updatePlayer`. -/
def candidatePos (F : Libm α) (rc : AdvancedRayCaster α) (time : α) : Point2D α :=
  let sinTime := F.sin (time * 0.005)
  let cosTime := F.cos (time * 0.003)
  let dx := F.cos rc.playerAngle * rc.moveSpeed * (1 + sinTime * 0.3)
  let dy := F.sin rc.playerAngle * rc.moveSpeed * (1 + cosTime * 0.3)
  ⟨rc.player.x + dx, rc.player.y + dy⟩

/-- `AdvancedRayCaster::updatePlayer`. -/
def updatePlayer (F : Libm α) (rc : AdvancedRayCaster α) (time : α) :
    AdvancedRayCaster α :=
  let cosTime := F.cos (time * 0.003)
  let newPos := candidatePos F rc time
  let rc1 : AdvancedRayCaster α :=
    if !checkCollision F rc newPos then { rc with player := newPos }
    else { rc with playerAngle := rc.playerAngle + F.M_PI * 0.7 }
  let rc2 : AdvancedRayCaster α :=
    { rc1 with playerAngle := rc1.playerAngle + rc1.rotSpeed * (1 + cosTime * 0.5) }
  { rc2 with
    player := ⟨stdMax 60 (stdMin 740 rc2.player.x), stdMax 60 (stdMin 540 rc2.player.y)⟩ }

/-- The frames of `AdvancedRayCastingExample::content`, as far as the player
is concerned: `updatePlayer(animationTime)` followed by `animationTime++`,
repeated `n` times from the time `time`. -/
def runFrames (F : Libm α) : Nat → AdvancedRayCaster α → α → AdvancedRayCaster α
  | 0, rc, _ => rc
  | n + 1, rc, time => runFrames F n (updatePlayer F rc time) (time + 1)

/-- The method call `castRay(angle)` as a state transformer: the returned
`RayHit` together with the state of the object after the call (`castRay`
assigns no data member). -/
def castRayCall (F : Libm α) (rc : AdvancedRayCaster α) (angle : α) :
    RayHit α × AdvancedRayCaster α :=
  (castRay F rc angle, rc)

/-! ### `drawAdvanced3DView` -/

/-- The local `viewWidth` of `drawAdvanced3DView`: `w * 0.45f`. -/
def viewWidth (w : Nat) : α := (w : α) * 0.45

/-- The local `viewHeight` of `drawAdvanced3DView`: `h * 0.7f`. -/
def viewHeight (h : Nat) : α := (h : α) * 0.7

/-- The local `viewX` of `drawAdvanced3DView`: `w - viewWidth - 10`. -/
def viewX (w : Nat) : α := (w : α) - viewWidth w - 10

/-- The local `viewY` of `drawAdvanced3DView`. -/
def viewY : α := 10

/-- The local `rayAngle` of the loop of `drawAdvanced3DView` for column `i`. -/
def rayAngle (rc : AdvancedRayCaster α) (i : Int) : α :=
  rc.playerAngle - rc.fov / 2 + (rc.fov * (i : α)) / ((rc.numRays - 1 : Int) : α)

/-- The local `correctedDistance`: `hit.distance * cos(rayAngle - playerAngle)`. -/
def correctedDistance (F : Libm α) (hit : RayHit α) (rayAngle playerAngle : α) : α :=
  hit.distance * F.cos (rayAngle - playerAngle)

/-- The local `wallHeight`:
`std::min(viewHeight, viewHeight * 150.0f / (correctedDistance + 1))`. -/
def wallHeight (viewHeight correctedDistance : α) : α :=
  stdMin viewHeight (viewHeight * 150 / (correctedDistance + 1))

/-- The local `stripWidth`: `viewWidth / numRays`. -/
def stripWidth (viewWidth : α) (numRays : Int) : α := viewWidth / (numRays : α)

/-- The local `stripX`: `viewX + i * stripWidth`. -/
def stripX (viewX viewWidth : α) (numRays i : Int) : α :=
  viewX + (i : α) * stripWidth viewWidth numRays

/-- The local `stripY`: `viewY + (viewHeight - wallHeight) / 2`. -/
def stripY (viewY viewHeight wallHeight : α) : α :=
  viewY + (viewHeight - wallHeight) / 2

/-- The local `distanceFactor`: `std::max(0.2f, 1.0f - correctedDistance / 400.0f)`. -/
def distanceFactor (correctedDistance : α) : α :=
  stdMax 0.2 (1 - correctedDistance / 400)

/-- The wall a `RayHit` points to, read in the wall list (`*hit.wall`). -/
def hitWall (walls : List (Wall α)) (hit : RayHit α) : Option (Wall α) :=
  hit.wall.bind (fun k => walls[k]?)

/-- The conversion `(uint8_t)(x)` of a `float`: truncation toward zero, the
integer being reduced modulo `2^8`. -/
def toUint8 [FloorRing α] (x : α) : Nat :=
  ((if 0 ≤ x then ⌊x⌋ else ⌈x⌉) % 256).toNat

/-- The body of the loop of `drawAdvanced3DView` for column `i`, on a canvas
of size `w x h`: the wall strip pushed, `none` when the ray does not hit.
(The texture line pushed for every third column is left out.) -/
def drawColumn [FloorRing α] (F : Libm α) (rc : AdvancedRayCaster α) (w h : Nat) (i : Int) :
    Option (WallStrip α) :=
  let angle := rayAngle rc i
  let hit := castRay F rc angle
  if hit.hit then
    match hitWall rc.walls hit with
    | none => none
    | some wall =>
      let cd := correctedDistance F hit angle rc.playerAngle
      let height := wallHeight (viewHeight h) cd
      let lighting := calculateLighting F rc hit.point
      let finalBrightness := lighting * distanceFactor cd
      some
        { x := stripX (viewX w) (viewWidth w) rc.numRays i
          y := stripY viewY (viewHeight h) height
          width := stripWidth (viewWidth w) rc.numRays + 1
          height := height
          r := toUint8 ((wall.r : α) * finalBrightness)
          g := toUint8 ((wall.g : α) * finalBrightness)
          b := toUint8 ((wall.b : α) * finalBrightness) }
  else none

/-! ### Division with a recorded zero divisor -/

/-- Division that records a zero divisor: `none` when the divisor is `0`. -/
def checkedDiv (a b : α) : Option α := if b = 0 then none else some (a / b)

/-- `rayWallIntersection` with every division checked: the outer `none` means
that a division by zero was evaluated, `some r` that the call returned `r`
without one. -/
def rayWallIntersectionChecked (rayStart rayDir : Point2D α) (wall : Wall α) :
    Option (Option (Point2D α × α)) :=
  let wallDir : Point2D α := ⟨wall.end_.x - wall.start.x, wall.end_.y - wall.start.y⟩
  let denominator := rayDir.x * wallDir.y - rayDir.y * wallDir.x
  if |denominator| < 1e-10 then some none
  else
    match checkedDiv ((wall.start.x - rayStart.x) * wallDir.y
        - (wall.start.y - rayStart.y) * wallDir.x) denominator with
    | none => none
    | some t =>
      match checkedDiv ((wall.start.x - rayStart.x) * rayDir.y
          - (wall.start.y - rayStart.y) * rayDir.x) denominator with
      | none => none
      | some u =>
        if t > 0 ∧ u ≥ 0 ∧ u ≤ 1 then
          some (some (⟨rayStart.x + t * rayDir.x, rayStart.y + t * rayDir.y⟩, t))
        else some none

/-- The loop of `checkCollision` with every division checked: `none` means that
a division by zero was evaluated. -/
def checkCollisionLoopChecked (F : Libm α) (pos : Point2D α) : List (Wall α) → Option Bool
  | [] => some false
  | wall :: rest =>
    let dx := wall.end_.x - wall.start.x
    let dy := wall.end_.y - wall.start.y
    let length := F.sqrt (dx * dx + dy * dy)
    if length = 0 then checkCollisionLoopChecked F pos rest
    else
      match checkedDiv ((pos.x - wall.start.x) * dx + (pos.y - wall.start.y) * dy)
          (length * length) with
      | none => none
      | some q =>
        let t := stdMax 0 (stdMin 1 q)
        let projX := wall.start.x + t * dx
        let projY := wall.start.y + t * dy
        let distSq := (pos.x - projX) * (pos.x - projX) + (pos.y - projY) * (pos.y - projY)
        if distSq < 15 * 15 then some true else checkCollisionLoopChecked F pos rest

/-! ### `03.SierpinskiTriangle.cpp` -/

/-- The conversion `(uint8_t)(n)` of an `int`: reduction modulo `2^8`. -/
def uint8OfInt (n : Int) : Nat := (n % 256).toNat

/-- The colour `(newR, newG, newB)` handed to the recursive calls of
`drawSierpinskiTriangle`; `%` is the remainder of C (truncated division), and
`colorShift * 1.3f` is a `float` product, rounded to binary32 before the
conversion `(int)`. -/
def shiftColor (depth : Int) (r g blue : Nat) : Nat × Nat × Nat :=
  let colorShift : Int := depth * 30
  let newR := uint8OfInt (Int.tmod ((r : Int) + colorShift) 255)
  let newG := uint8OfInt
    (Int.tmod ((g : Int) + f32ToInt (f32Mul (f32OfInt colorShift) (f32OfRat 13 10))) 255)
  let newB := uint8OfInt (Int.tmod ((blue : Int) + colorShift * 2) 255)
  (newR, newG, newB)

/-- `SierpinskiFractal::drawSierpinskiTriangle`.  The canvas is the list of the
shapes pushed so far; the result is the canvas after the call.  The recursion
is bounded by `fuel`: `none` means that the call has not returned within
`fuel` nested calls. -/
def drawSierpinskiTriangle [FloorRing α] :
    Nat → List (FilledTriangle α) → Point2D α → Point2D α → Point2D α → Int →
      Nat → Nat → Nat → Nat → Option (List (FilledTriangle α))
  | 0, _, _, _, _, _, _, _, _, _ => none
  | fuel + 1, canvas, a, b, c, depth, r, g, blue, alpha =>
    if depth = 0 then
      some (canvas ++ [⟨a, b, c, r, g, blue, alpha⟩])
    else
      let ab : Point2D α := ⟨(a.x + b.x) * 0.5, (a.y + b.y) * 0.5⟩
      let bc : Point2D α := ⟨(b.x + c.x) * 0.5, (b.y + c.y) * 0.5⟩
      let ca : Point2D α := ⟨(c.x + a.x) * 0.5, (c.y + a.y) * 0.5⟩
      let new := shiftColor depth r g blue
      match drawSierpinskiTriangle fuel canvas a ab ca (depth - 1) new.1 new.2.1 new.2.2 alpha with
      | none => none
      | some canvas1 =>
        match drawSierpinskiTriangle fuel canvas1 ab b bc (depth - 1) new.1 new.2.1 new.2.2
            alpha with
        | none => none
        | some canvas2 =>
          drawSierpinskiTriangle fuel canvas2 ca bc c (depth - 1) new.1 new.2.1 new.2.2 alpha

/-! ### `02.Fractal.cpp` -/

/-- The caster `rc` with its heading replaced. -/
def AdvancedRayCaster.withHeading (rc : AdvancedRayCaster α) (playerAngle : α) :
    AdvancedRayCaster α :=
  { rc with playerAngle := playerAngle }

/-- The number `d` is the Euclidean distance between `p` and `q`: it is not
negative and its square is the squared distance. -/
def IsDistance (d : α) (p q : Point2D α) : Prop :=
  0 ≤ d ∧ d * d = (p.x - q.x) * (p.x - q.x) + (p.y - q.y) * (p.y - q.y)

/-- Two hits agree: same flag, same point, same distance and same wall pointed
to, each pointer being read in its own wall list. -/
def sameHit (walls : List (Wall α)) (hit : RayHit α) (walls2 : List (Wall α))
    (hit2 : RayHit α) : Prop :=
  hit.hit = hit2.hit ∧ hit.point = hit2.point ∧ hit.distance = hit2.distance
    ∧ hitWall walls hit = hitWall walls2 hit2

/-- A wall of non-zero length: its two end points differ. -/
def Wall.nonDegenerate (wall : Wall α) : Bool :=
  decide (wall.start ≠ wall.end_)

/-- The point of the wall segment at parameter `s`: `start + s * (end - start)`. -/
def pointOnWall (wall : Wall α) (s : α) : Point2D α :=
  ⟨wall.start.x + s * (wall.end_.x - wall.start.x),
   wall.start.y + s * (wall.end_.y - wall.start.y)⟩

/-- The squared Euclidean distance between two points. -/
def sqDist (p q : Point2D α) : α :=
  (p.x - q.x) * (p.x - q.x) + (p.y - q.y) * (p.y - q.y)

/-- The lighting formula as the specification words it: the ambient floor
plus the sum over all lights of `intensity / (distance * 0.01 + 1) * 0.01`,
clamped to `1`. -/
def lightingFormulaAll (F : Libm α) (lights : List (LightSource α)) (point : Point2D α) : α :=
  min 1 (0.1 + (lights.map
    (fun l => l.intensity / (lightDistance F point l * 0.01 + 1) * 0.01)).sum)

/-- The lighting formula restricted to the lights at a positive distance
from the point. -/
def lightingFormulaPositive (F : Libm α) (lights : List (LightSource α))
    (point : Point2D α) : α :=
  min 1 (0.1 + ((lights.filter (fun l => decide (0 < lightDistance F point l))).map
    (fun l => l.intensity / (lightDistance F point l * 0.01 + 1) * 0.01)).sum)

/-- The caster `rc` with its light list replaced. -/
def AdvancedRayCaster.withLights (rc : AdvancedRayCaster α) (lights : List (LightSource α)) :
    AdvancedRayCaster α :=
  { rc with lights := lights }

/-- The caster `rc` with its wall list and player position replaced (used to
state examples on scenes other than the built-in one). -/
def AdvancedRayCaster.withScene (rc : AdvancedRayCaster α) (walls : List (Wall α))
    (player : Point2D α) : AdvancedRayCaster α :=
  { rc with walls := walls, player := player }

end Defs

/-! ## The ray caster in binary32

The definitions of the part above compute in an exact field.  The
definitions below are the same source lines evaluated in binary32, operation
by operation; they carry the suffix `32`.  `sqrt` is the correctly rounded
`f32Sqrt`; `cos` and `sin` are a parameter `L : Libm32`. -/

/-- The point with rational coordinates a `Point2D` of `float`s stands for. -/
def Point2D.toRat (p : Point2D F32) : Point2D ℚ := ⟨F32.toRat p.x, F32.toRat p.y⟩

/-- The wall with rational coordinates a `Wall` of `float`s stands for. -/
def Wall.toRat (w : Wall F32) : Wall ℚ :=
  ⟨Point2D.toRat w.start, Point2D.toRat w.end_, w.r, w.g, w.b⟩

/-- The constant `M_PI` of `<cmath>`, the `double` nearest to the literal
`3.14159265358979323846`. -/
def M_PI64 : F32 := f64OfRat 314159265358979323846 (10 ^ 20)

/-- The wall `Wall(Point2D(x1, y1), Point2D(x2, y2), r, g, b)` with integer
coordinates converted to `float`. -/
def wall32 (x1 y1 x2 y2 : Int) (r g b : Nat) : Wall F32 :=
  ⟨⟨f32OfInt x1, f32OfInt y1⟩, ⟨f32OfInt x2, f32OfInt y2⟩, r, g, b⟩

/-- The constructor `AdvancedRayCaster()` in binary32: `fov` is the `double`
quotient `M_PI / 2.5` converted to `float`. -/
def AdvancedRayCaster.new32 : AdvancedRayCaster F32 :=
  { walls :=
      [ wall32 50 50 750 50 200 100 100,
        wall32 750 50 750 550 100 200 100,
        wall32 750 550 50 550 100 100 200,
        wall32 50 550 50 50 200 200 100,
        wall32 150 150 250 150 180 120 180,
        wall32 250 150 250 250 180 120 180,
        wall32 350 100 450 100 120 180 180,
        wall32 450 100 450 200 120 180 180,
        wall32 550 150 650 150 180 180 120,
        wall32 650 150 650 300 180 180 120,
        wall32 100 350 200 350 200 150 100,
        wall32 200 350 200 450 200 150 100,
        wall32 300 400 400 300 150 200 150,
        wall32 500 350 600 450 100 150 200 ]
    lights :=
      [ ⟨⟨f32OfInt 200, f32OfInt 200⟩, f32OfInt 100, 255, 200, 200⟩,
        ⟨⟨f32OfInt 600, f32OfInt 200⟩, f32OfInt 80, 200, 200, 255⟩,
        ⟨⟨f32OfInt 400, f32OfInt 450⟩, f32OfInt 120, 200, 255, 200⟩ ]
    player := ⟨f32OfInt 400, f32OfInt 300⟩
    playerAngle := f32OfInt 0
    numRays := 120
    fov := f64ToF32 (f64Div M_PI64 (f64OfRat 5 2))
    moveSpeed := f32OfRat 3 1
    rotSpeed := f32OfRat 8 100 }

section Lemmas

variable {α : Type} [LinearOrderedField α]

theorem stdMin_eq_min (a b : α) : stdMin a b = min a b := by
  unfold stdMin
  rcases lt_or_le b a with h | h
  · rw [if_pos h, min_eq_right h.le]
  · rw [if_neg (not_lt.mpr h), min_eq_left h]

theorem stdMax_eq_max (a b : α) : stdMax a b = max a b := by
  unfold stdMax
  rcases lt_or_le a b with h | h
  · rw [if_pos h, max_eq_right h.le]
  · rw [if_neg (not_lt.mpr h), max_eq_left h]

/-- A non-null result of `rayWallIntersection` unfolds to the three tests
of the source and the two values it writes. -/
theorem rayWallIntersection_eq_some {R D : Point2D α} {w : Wall α} {P : Point2D α} {d : α} :
    rayWallIntersection R D w = some (P, d) ↔
      (¬ |denominator D w| < 1e-10) ∧ 0 < rayT R D w ∧ 0 ≤ rayU R D w ∧ rayU R D w ≤ 1 ∧
        P = ⟨R.x + rayT R D w * D.x, R.y + rayT R D w * D.y⟩ ∧ d = rayT R D w := by
  unfold rayWallIntersection
  by_cases h1 : |denominator D w| < 1e-10
  · simp [h1]
  · by_cases h2 : rayT R D w > 0 ∧ rayU R D w ≥ 0 ∧ rayU R D w ≤ 1
    · obtain ⟨h2a, h2b, h2c⟩ := h2
      simp only [h1, h2a, h2b, h2c, if_false, and_self, if_true, Option.some.injEq,
        Prod.mk.injEq, not_false_eq_true, true_and, gt_iff_lt, ge_iff_le]
      constructor
      · rintro ⟨rfl, rfl⟩; exact ⟨rfl, rfl⟩
      · rintro ⟨rfl, rfl⟩; exact ⟨rfl, rfl⟩
    · simp only [h1, h2, if_false, not_false_eq_true, true_and]
      constructor
      · intro h; simp at h
      · rintro ⟨ha, hb, hc, -⟩
        exact absurd ⟨ha, hb, hc⟩ h2

/-- The loop of `castRay` never raises `minDistance`. -/
theorem castRayLoop_min_le (player rayDir : Point2D α) (walls : List (Wall α)) (i : Nat)
    (st : RayHit α × α) : (castRayLoop player rayDir walls i st).2 ≤ st.2 := by
  induction walls generalizing i st with
  | nil => simp [castRayLoop]
  | cons w rest ih =>
    unfold castRayLoop
    rcases hq : rayWallIntersection player rayDir w with _ | ⟨p, d⟩
    · simpa using ih (i + 1) st
    · by_cases hd : d < st.2
      · simp only [hd, if_true]
        exact le_trans (ih _ _) hd.le
      · simpa only [hd, if_false] using ih (i + 1) st

/-- After the loop of `castRay`, `minDistance` is below the distance of every
valid intersection met. -/
theorem castRayLoop_min_le_dist (player rayDir : Point2D α) (walls : List (Wall α)) (i : Nat)
    (st : RayHit α × α) (w : Wall α) (hw : w ∈ walls) (p : Point2D α) (d : α)
    (h : rayWallIntersection player rayDir w = some (p, d)) :
    (castRayLoop player rayDir walls i st).2 ≤ d := by
  induction walls generalizing i st with
  | nil => simp at hw
  | cons v rest ih =>
    unfold castRayLoop
    rcases List.mem_cons.mp hw with rfl | hw
    · simp only [h]
      by_cases hd : d < st.2
      · simp only [hd, if_true]
        exact castRayLoop_min_le _ _ _ _ _
      · simp only [hd, if_false]
        exact le_trans (castRayLoop_min_le _ _ _ _ _) (not_lt.mp hd)
    · rcases hq : rayWallIntersection player rayDir v with _ | ⟨q, e⟩
      · simpa using ih (i + 1) st hw
      · by_cases hd : e < st.2
        · simp only [hd, if_true]
          exact ih _ _ hw
        · simpa only [hd, if_false] using ih (i + 1) st hw

/-- In the loop of `castRay`, a recorded hit carries `minDistance` as its
distance. -/
theorem castRayLoop_distance (player rayDir : Point2D α) (walls : List (Wall α)) (i : Nat)
    (st : RayHit α × α) (hst : st.1.hit = true → st.1.distance = st.2) :
    (castRayLoop player rayDir walls i st).1.hit = true →
      (castRayLoop player rayDir walls i st).1.distance
        = (castRayLoop player rayDir walls i st).2 := by
  induction walls generalizing i st with
  | nil => simpa [castRayLoop] using hst
  | cons v rest ih =>
    unfold castRayLoop
    rcases hq : rayWallIntersection player rayDir v with _ | ⟨q, e⟩
    · simpa using ih (i + 1) st hst
    · by_cases hd : e < st.2
      · simp only [hd, if_true]
        exact ih _ _ (fun _ => rfl)
      · simpa only [hd, if_false] using ih (i + 1) st hst

/-- The loop of `castRay` ends without a hit exactly when it started without
one and no wall met has a valid intersection below the initial `minDistance`. -/
theorem castRayLoop_hit_false (player rayDir : Point2D α) (walls : List (Wall α)) (i : Nat)
    (st : RayHit α × α) :
    (castRayLoop player rayDir walls i st).1.hit = false ↔
      st.1.hit = false ∧
        ∀ w ∈ walls, ∀ p d, rayWallIntersection player rayDir w = some (p, d) → ¬ d < st.2 := by
  induction walls generalizing i st with
  | nil => simp [castRayLoop]
  | cons v rest ih =>
    unfold castRayLoop
    rcases hq : rayWallIntersection player rayDir v with _ | ⟨q, e⟩
    · simp only [ih, List.mem_cons, forall_eq_or_imp, hq]
      simp
    · by_cases hd : e < st.2
      · simp only [hd, if_true, ih]
        constructor
        · rintro ⟨h, -⟩; simp at h
        · rintro ⟨-, h⟩
          exact absurd hd (h v (List.mem_cons_self _ _) q e hq)
      · simp only [hd, if_false, ih, List.mem_cons, forall_eq_or_imp, hq, Option.some.injEq,
          Prod.mk.injEq, and_imp]
        constructor
        · rintro ⟨h1, h2⟩
          refine ⟨h1, ?_, h2⟩
          rintro p d - rfl
          exact hd
        · rintro ⟨h1, -, h2⟩
          exact ⟨h1, h2⟩

/-- The hit recorded by the loop of `castRay` points at a wall of the list and
carries the point and distance `rayWallIntersection` computes for it. -/
theorem castRayLoop_wall (player rayDir : Point2D α) (pre walls : List (Wall α))
    (st : RayHit α × α)
    (hst : st.1.hit = true → ∃ j w, st.1.wall = some j ∧ (pre ++ walls)[j]? = some w ∧
      rayWallIntersection player rayDir w = some (st.1.point, st.1.distance)) :
    (castRayLoop player rayDir walls pre.length st).1.hit = true →
      ∃ j w, (castRayLoop player rayDir walls pre.length st).1.wall = some j ∧
        (pre ++ walls)[j]? = some w ∧
        rayWallIntersection player rayDir w
          = some ((castRayLoop player rayDir walls pre.length st).1.point,
              (castRayLoop player rayDir walls pre.length st).1.distance) := by
  induction walls generalizing pre st with
  | nil => simpa [castRayLoop] using hst
  | cons v rest ih =>
    have hlen : (pre ++ [v]).length = pre.length + 1 := by simp
    have happ : pre ++ v :: rest = (pre ++ [v]) ++ rest := by simp
    unfold castRayLoop
    rcases hq : rayWallIntersection player rayDir v with _ | ⟨q, e⟩
    · simp only []
      rw [happ, ← hlen]
      exact ih (pre ++ [v]) st (by rw [← happ]; exact hst)
    · by_cases hd : e < st.2
      · simp only [hd, if_true]
        rw [happ, ← hlen]
        refine ih (pre ++ [v]) _ (fun _ => ⟨pre.length, v, rfl, ?_, hq⟩)
        rw [← happ]
        exact List.getElem?_append_right (le_refl _) |>.trans (by simp)
      · simp only [hd, if_false]
        rw [happ, ← hlen]
        exact ih (pre ++ [v]) st (by rw [← happ]; exact hst)

/-- The loop of `checkCollision` reports no collision exactly when every wall
of non-zero computed length has `distSq` at least `15 * 15`. -/
theorem checkCollisionLoop_false (F : Libm α) (pos : Point2D α) (walls : List (Wall α)) :
    checkCollisionLoop F pos walls = false ↔
      ∀ w ∈ walls, wallLength F w ≠ 0 → ¬ distSq F pos w < 15 * 15 := by
  induction walls with
  | nil => simp [checkCollisionLoop]
  | cons v rest ih =>
    unfold checkCollisionLoop
    by_cases h0 : wallLength F v = 0
    · simp [h0, ih]
    · by_cases hd : distSq F pos v < 15 * 15
      · rw [if_neg h0, if_pos hd]
        constructor
        · intro h; simp at h
        · intro h
          exact absurd hd (h v (List.mem_cons_self _ _) h0)
      · rw [if_neg h0, if_neg hd, ih]
        constructor
        · intro h u hu
          rcases List.mem_cons.mp hu with rfl | hu
          · exact fun _ => hd
          · exact h u hu
        · intro h u hu
          exact h u (List.mem_cons_of_mem _ hu)

/-- The loop of `checkCollision` reports a collision exactly when some wall of
non-zero computed length has `distSq` below `15 * 15`. -/
theorem checkCollisionLoop_true (F : Libm α) (pos : Point2D α) (walls : List (Wall α)) :
    checkCollisionLoop F pos walls = true ↔
      ∃ w ∈ walls, wallLength F w ≠ 0 ∧ distSq F pos w < 15 * 15 := by
  rw [← Bool.not_eq_false, checkCollisionLoop_false]
  push_neg
  rfl

/-- The clamped projection is the point of the segment nearest to `pos`:
`distSq` is below the squared distance from `pos` to any point of the wall. -/
theorem distSq_le_sqDist (F : Libm α) (pos : Point2D α) (w : Wall α)
    (hL : wallLength F w * wallLength F w
      = (w.end_.x - w.start.x) * (w.end_.x - w.start.x)
        + (w.end_.y - w.start.y) * (w.end_.y - w.start.y))
    (hne : wallLength F w ≠ 0) (s : α) (h0 : 0 ≤ s) (h1 : s ≤ 1) :
    distSq F pos w ≤ sqDist pos (pointOnWall w s) := by
  have hQ : 0 < wallLength F w * wallLength F w := mul_self_pos.mpr hne
  simp only [distSq, projPoint, projT, sqDist, pointOnWall, stdMax_eq_max, stdMin_eq_min]
  rw [hL] at hQ ⊢
  generalize w.end_.x - w.start.x = dx at hQ ⊢
  generalize w.end_.y - w.start.y = dy at hQ ⊢
  generalize hQ' : dx * dx + dy * dy = Q at hQ ⊢
  generalize hr : ((pos.x - w.start.x) * dx + (pos.y - w.start.y) * dy) / Q = r
  have hrQ : (pos.x - w.start.x) * dx + (pos.y - w.start.y) * dy = r * Q := by
    rw [← hr]; field_simp
  generalize ht : max 0 (min 1 r) = t
  have hid : (pos.x - (w.start.x + s * dx)) * (pos.x - (w.start.x + s * dx))
        + (pos.y - (w.start.y + s * dy)) * (pos.y - (w.start.y + s * dy))
      - ((pos.x - (w.start.x + t * dx)) * (pos.x - (w.start.x + t * dx))
        + (pos.y - (w.start.y + t * dy)) * (pos.y - (w.start.y + t * dy)))
      = Q * (s - t) * (s + t - 2 * r) := by
    linear_combination (-2 * (s - t)) * hrQ + (s ^ 2 - t ^ 2) * hQ'
  have hnn : 0 ≤ Q * (s - t) * (s + t - 2 * r) := by
    rcases le_total r 0 with hr0 | hr0
    · have : t = 0 := by
        rw [← ht, min_eq_right (le_trans hr0 zero_le_one), max_eq_left hr0]
      subst this
      have h2 : 0 ≤ s + 0 - 2 * r := by linarith
      have h3 : 0 ≤ Q * (s - 0) := mul_nonneg hQ.le (by linarith)
      exact mul_nonneg h3 h2
    · rcases le_total r 1 with hr1 | hr1
      · have : t = r := by
          rw [← ht, min_eq_right hr1, max_eq_right hr0]
        subst this
        have h2 : Q * (s - t) * (s + t - 2 * t) = Q * ((s - t) * (s - t)) := by ring
        rw [h2]
        exact mul_nonneg hQ.le (mul_self_nonneg _)
      · have : t = 1 := by
          rw [← ht, min_eq_left hr1]
          exact max_eq_right zero_le_one
        subst this
        have h2 : Q * (s - 1) * (s + 1 - 2 * r) = Q * ((1 - s) * (2 * r - 1 - s)) := by ring
        rw [h2]
        exact mul_nonneg hQ.le (mul_nonneg (by linarith) (by linarith))
  linarith

/-- With an exact square root, the computed wall length squares to the squared
length of the wall. -/
theorem wallLength_mul_self (F : Libm α) (hsqrt : ∀ x : α, 0 ≤ x → F.sqrt x * F.sqrt x = x)
    (w : Wall α) :
    wallLength F w * wallLength F w
      = (w.end_.x - w.start.x) * (w.end_.x - w.start.x)
        + (w.end_.y - w.start.y) * (w.end_.y - w.start.y) :=
  hsqrt _ (add_nonneg (mul_self_nonneg _) (mul_self_nonneg _))

/-- Every wall of the built-in scene has distinct end points. -/
theorem builtin_walls_nondegenerate (F : Libm α) (w : Wall α)
    (hw : w ∈ (AdvancedRayCaster.new F).walls) :
    (w.end_.x - w.start.x) * (w.end_.x - w.start.x)
      + (w.end_.y - w.start.y) * (w.end_.y - w.start.y) ≠ 0 := by
  simp only [AdvancedRayCaster.new, List.mem_cons, List.mem_singleton, List.not_mem_nil,
    or_false] at hw
  rcases hw with rfl | rfl | rfl | rfl | rfl | rfl | rfl | rfl | rfl | rfl | rfl | rfl | rfl | rfl
    <;> norm_num

/-- With an exact square root, no wall of the built-in scene is skipped by
`checkCollision`. -/
theorem builtin_wallLength_ne_zero (F : Libm α)
    (hsqrt : ∀ x : α, 0 ≤ x → F.sqrt x * F.sqrt x = x) (w : Wall α)
    (hw : w ∈ (AdvancedRayCaster.new F).walls) : wallLength F w ≠ 0 := by
  intro h0
  have h := wallLength_mul_self F hsqrt w
  rw [h0, mul_zero] at h
  exact builtin_walls_nondegenerate F w hw h.symm

/-- The candidate displacement of `updatePlayer` is at most `3.9` in each
coordinate when the speed is `3` and `cos`, `sin` take values in `[-1, 1]`. -/
theorem candidatePos_near (F : Libm α) (hcos : ∀ x : α, |F.cos x| ≤ 1)
    (hsin : ∀ x : α, |F.sin x| ≤ 1) (rc : AdvancedRayCaster α) (time : α)
    (hspeed : rc.moveSpeed = 3) :
    |(candidatePos F rc time).x - rc.player.x| ≤ 3.9
      ∧ |(candidatePos F rc time).y - rc.player.y| ≤ 3.9 := by
  have bound : ∀ c a : α, |c| ≤ 1 → |a| ≤ 1 → |c * 3 * (1 + a * 0.3)| ≤ 3.9 := by
    intro c a hc ha
    obtain ⟨hc1, hc2⟩ := abs_le.mp hc
    obtain ⟨ha1, ha2⟩ := abs_le.mp ha
    rw [abs_le]
    constructor
    · nlinarith [mul_nonneg (by linarith : (0 : α) ≤ 1 + c) (by linarith : (0 : α) ≤ 1 + a * 0.3)]
    · nlinarith [mul_nonneg (by linarith : (0 : α) ≤ 1 - c) (by linarith : (0 : α) ≤ 1 + a * 0.3)]
  simp only [candidatePos, hspeed, add_sub_cancel_left]
  exact ⟨bound _ _ (hcos _) (hsin _), bound _ _ (hsin _) (hcos _)⟩

/-- The position after `updatePlayer`: the candidate position when it does not
collide, the old position otherwise, clamped in both cases. -/
theorem updatePlayer_player (F : Libm α) (rc : AdvancedRayCaster α) (time : α) :
    (updatePlayer F rc time).player
      = if checkCollision F rc (candidatePos F rc time) = true then
          ⟨stdMax 60 (stdMin 740 rc.player.x), stdMax 60 (stdMin 540 rc.player.y)⟩
        else
          ⟨stdMax 60 (stdMin 740 (candidatePos F rc time).x),
           stdMax 60 (stdMin 540 (candidatePos F rc time).y)⟩ := by
  unfold updatePlayer
  by_cases h : checkCollision F rc (candidatePos F rc time) = true
  · simp [h]
  · simp [h]

/-- `updatePlayer` changes neither the walls nor the speed. -/
theorem updatePlayer_scene (F : Libm α) (rc : AdvancedRayCaster α) (time : α) :
    (updatePlayer F rc time).walls = rc.walls
      ∧ (updatePlayer F rc time).moveSpeed = rc.moveSpeed := by
  unfold updatePlayer
  by_cases h : checkCollision F rc (candidatePos F rc time) = true
  · simp [h]
  · simp [h]

/-- The clamp of `updatePlayer` leaves a coordinate inside the bounds unchanged. -/
theorem clamp_of_mem (lo hi x : α) (h1 : lo ≤ x) (h2 : x ≤ hi) :
    stdMax lo (stdMin hi x) = x := by
  rw [stdMax_eq_max, stdMin_eq_min, min_eq_right h2, max_eq_right h1]

/-- In the built-in scene every candidate position taken from the start
position `(400, 300)` collides: the start position is an end point of the wall
from `(300, 400)` to `(400, 300)` and the step is shorter than the radius. -/
theorem start_candidate_collides (F : Libm α) (hcos : ∀ x : α, |F.cos x| ≤ 1)
    (hsin : ∀ x : α, |F.sin x| ≤ 1) (hsqrt : ∀ x : α, 0 ≤ x → F.sqrt x * F.sqrt x = x)
    (rc : AdvancedRayCaster α) (time : α)
    (hwalls : rc.walls = (AdvancedRayCaster.new F).walls) (hspeed : rc.moveSpeed = 3)
    (hplayer : rc.player = ⟨400, 300⟩) :
    checkCollision F rc (candidatePos F rc time) = true := by
  obtain ⟨hx, hy⟩ := candidatePos_near F hcos hsin rc time hspeed
  rw [hplayer] at hx hy
  unfold checkCollision
  rw [checkCollisionLoop_true, hwalls]
  have hmem : (⟨⟨300, 400⟩, ⟨400, 300⟩, 150, 200, 150⟩ : Wall α)
      ∈ (AdvancedRayCaster.new F).walls := by
    simp [AdvancedRayCaster.new]
  refine ⟨_, hmem, builtin_wallLength_ne_zero F hsqrt _ hmem, ?_⟩
  have hle := distSq_le_sqDist F (candidatePos F rc time) _
    (wallLength_mul_self F hsqrt _) (builtin_wallLength_ne_zero F hsqrt _ hmem) 1
    zero_le_one le_rfl
  refine lt_of_le_of_lt hle ?_
  simp only [sqDist, pointOnWall]
  obtain ⟨hx1, hx2⟩ := abs_le.mp hx
  obtain ⟨hy1, hy2⟩ := abs_le.mp hy
  norm_num at hx1 hx2 hy1 hy2 ⊢
  nlinarith

/-- One iteration of the lighting loop does not lower `totalLight` when the
intensity of the light is not negative. -/
theorem lightingStep_ge (F : Libm α) (point : Point2D α) (acc : α) (l : LightSource α)
    (hl : 0 ≤ l.intensity) : acc ≤ lightingStep F point acc l := by
  unfold lightingStep
  by_cases hd : lightDistance F point l > 0
  · simp only [hd, if_true]
    have hden : 0 < lightDistance F point l * 0.01 + 1 := by
      have : 0 ≤ lightDistance F point l * 0.01 := mul_nonneg hd.le (by norm_num)
      linarith
    have : 0 ≤ l.intensity / (lightDistance F point l * 0.01 + 1) * 0.01 :=
      mul_nonneg (div_nonneg hl hden.le) (by norm_num)
    linarith
  · simp only [hd, if_false, le_refl]

/-- The lighting loop does not lower `totalLight` when no intensity is negative. -/
theorem lighting_foldl_ge (F : Libm α) (point : Point2D α) (lights : List (LightSource α))
    (acc : α) (hl : ∀ l ∈ lights, 0 ≤ l.intensity) :
    acc ≤ lights.foldl (lightingStep F point) acc := by
  induction lights generalizing acc with
  | nil => simp
  | cons l rest ih =>
    rw [List.foldl_cons]
    exact le_trans (lightingStep_ge F point acc l (hl l (List.mem_cons_self _ _)))
      (ih _ (fun m hm => hl m (List.mem_cons_of_mem _ hm)))

/-- The lighting loop adds to `totalLight` the contributions of the lights at
a positive distance, and only those. -/
theorem lighting_foldl_eq (F : Libm α) (point : Point2D α) (lights : List (LightSource α))
    (acc : α) :
    lights.foldl (lightingStep F point) acc
      = acc + ((lights.filter (fun l => decide (0 < lightDistance F point l))).map
          (fun l => l.intensity / (lightDistance F point l * 0.01 + 1) * 0.01)).sum := by
  induction lights generalizing acc with
  | nil => simp
  | cons l rest ih =>
    rw [List.foldl_cons, ih]
    by_cases hd : 0 < lightDistance F point l
    · simp [lightingStep, hd, List.filter_cons, add_assoc]
    · simp [lightingStep, hd, List.filter_cons]

/-- A hit returned by `castRay` points at a wall of the list and carries the
point and the distance `rayWallIntersection` computes for this wall. -/
theorem castRay_hit_wall (F : Libm α) (rc : AdvancedRayCaster α) (angle : α)
    (hhit : (castRay F rc angle).hit = true) :
    ∃ i w, (castRay F rc angle).wall = some i ∧ rc.walls[i]? = some w ∧
      rayWallIntersection rc.player ⟨F.cos angle, F.sin angle⟩ w
        = some ((castRay F rc angle).point, (castRay F rc angle).distance) := by
  have h := castRayLoop_wall rc.player ⟨F.cos angle, F.sin angle⟩ [] rc.walls
    (RayHit.default, FLT_MAX) (by simp [RayHit.default])
  simp only [List.length_nil, List.nil_append] at h
  exact h hhit

/-- A hit returned by `castRay` has a positive distance and lies at this
distance along the direction `(cos angle, sin angle)` from the player. -/
theorem castRay_hit_point (F : Libm α) (rc : AdvancedRayCaster α) (angle : α)
    (hhit : (castRay F rc angle).hit = true) :
    0 < (castRay F rc angle).distance
      ∧ (castRay F rc angle).point.x
          = rc.player.x + (castRay F rc angle).distance * F.cos angle
      ∧ (castRay F rc angle).point.y
          = rc.player.y + (castRay F rc angle).distance * F.sin angle := by
  obtain ⟨i, w, -, -, h⟩ := castRay_hit_wall F rc angle hhit
  obtain ⟨-, ht, -, -, hP, hd⟩ := rayWallIntersection_eq_some.mp h
  rw [hd, hP]
  exact ⟨ht, rfl, rfl⟩

/-- The element of index `pre.length` of `pre ++ v :: rest` is `v`. -/
theorem getElem?_append_cons_length {β : Type} (pre : List β) (v : β) (rest : List β) :
    (pre ++ v :: rest)[pre.length]? = some v := by
  rw [List.getElem?_append_right (le_refl _)]
  simp

/-- The hit recorded by the loop of `castRay` points at the first wall that
attains `minDistance`: every wall before it has a strictly larger distance. -/
theorem castRayLoop_first (player rayDir : Point2D α) (pre walls : List (Wall α))
    (st : RayHit α × α)
    (hA : ∀ j w p d, j < pre.length → (pre ++ walls)[j]? = some w →
      rayWallIntersection player rayDir w = some (p, d) → st.2 ≤ d)
    (hB : st.1.hit = true → st.1.distance = st.2 ∧ ∃ i, st.1.wall = some i ∧ i < pre.length ∧
      ∀ j w p d, j < i → (pre ++ walls)[j]? = some w →
        rayWallIntersection player rayDir w = some (p, d) → st.2 < d) :
    (castRayLoop player rayDir walls pre.length st).1.hit = true →
      ∃ i, (castRayLoop player rayDir walls pre.length st).1.wall = some i ∧
        ∀ j w p d, j < i → (pre ++ walls)[j]? = some w →
          rayWallIntersection player rayDir w = some (p, d) →
          (castRayLoop player rayDir walls pre.length st).1.distance < d := by
  induction walls generalizing pre st with
  | nil =>
    intro hhit
    simp only [castRayLoop] at hhit ⊢
    obtain ⟨hd, i, hi, -, hlt⟩ := hB hhit
    exact ⟨i, hi, fun j w p d hj hw hq => hd ▸ hlt j w p d hj hw hq⟩
  | cons v rest ih =>
    have hlen : (pre ++ [v]).length = pre.length + 1 := by simp
    have happ : pre ++ v :: rest = (pre ++ [v]) ++ rest := by simp
    have hv := getElem?_append_cons_length pre v rest
    unfold castRayLoop
    rcases hq : rayWallIntersection player rayDir v with _ | ⟨q, e⟩
    · simp only []
      rw [happ, ← hlen]
      refine ih (pre ++ [v]) st ?_ ?_
      · intro j w p d hj hw hwq
        rw [← happ] at hw
        rw [hlen] at hj
        rcases Nat.lt_succ_iff_lt_or_eq.mp hj with hj | rfl
        · exact hA j w p d hj hw hwq
        · rw [hv] at hw
          cases hw
          rw [hq] at hwq
          cases hwq
      · intro hh
        obtain ⟨hd, i, hi, hil, hlt⟩ := hB hh
        refine ⟨hd, i, hi, by rw [hlen]; exact Nat.lt_succ_of_lt hil, ?_⟩
        intro j w p d hj hw hwq
        rw [← happ] at hw
        exact hlt j w p d hj hw hwq
    · by_cases hd : e < st.2
      · simp only [hd, if_true]
        rw [happ, ← hlen]
        refine ih (pre ++ [v]) _ ?_ ?_
        · intro j w p d hj hw hwq
          rw [← happ] at hw
          rw [hlen] at hj
          rcases Nat.lt_succ_iff_lt_or_eq.mp hj with hj | rfl
          · exact le_trans hd.le (hA j w p d hj hw hwq)
          · rw [hv] at hw
            cases hw
            rw [hq] at hwq
            cases hwq
            exact le_refl _
        · intro _
          refine ⟨rfl, pre.length, rfl, by rw [hlen]; exact Nat.lt_succ_self _, ?_⟩
          intro j w p d hj hw hwq
          rw [← happ] at hw
          exact lt_of_lt_of_le hd (hA j w p d hj hw hwq)
      · simp only [hd, if_false]
        rw [happ, ← hlen]
        refine ih (pre ++ [v]) st ?_ ?_
        · intro j w p d hj hw hwq
          rw [← happ] at hw
          rw [hlen] at hj
          rcases Nat.lt_succ_iff_lt_or_eq.mp hj with hj | rfl
          · exact hA j w p d hj hw hwq
          · rw [hv] at hw
            cases hw
            rw [hq] at hwq
            cases hwq
            exact not_lt.mp hd
        · intro hh
          obtain ⟨hd2, i, hi, hil, hlt⟩ := hB hh
          refine ⟨hd2, i, hi, by rw [hlen]; exact Nat.lt_succ_of_lt hil, ?_⟩
          intro j w p d hj hw hwq
          rw [← happ] at hw
          exact hlt j w p d hj hw hwq

/-- Dropping from the wall list walls that have no intersection with the ray
does not change what the loop of `castRay` records. -/
theorem castRayLoop_filter (player rayDir : Point2D α) (keep : Wall α → Bool)
    (hkeep : ∀ w, keep w = false → rayWallIntersection player rayDir w = none)
    (pre pre2 walls : List (Wall α)) (st st2 : RayHit α × α)
    (hs : sameHit (pre ++ walls) st.1 (pre2 ++ walls.filter keep) st2.1) (hm : st.2 = st2.2) :
    sameHit (pre ++ walls) (castRayLoop player rayDir walls pre.length st).1
        (pre2 ++ walls.filter keep)
        (castRayLoop player rayDir (walls.filter keep) pre2.length st2).1
      ∧ (castRayLoop player rayDir walls pre.length st).2
        = (castRayLoop player rayDir (walls.filter keep) pre2.length st2).2 := by
  induction walls generalizing pre pre2 st st2 with
  | nil => exact ⟨hs, hm⟩
  | cons v rest ih =>
    have hlen : (pre ++ [v]).length = pre.length + 1 := by simp
    have happ : pre ++ v :: rest = (pre ++ [v]) ++ rest := by simp
    by_cases hk : keep v = true
    · have hlen2 : (pre2 ++ [v]).length = pre2.length + 1 := by simp
      have happ2 : pre2 ++ v :: rest.filter keep = (pre2 ++ [v]) ++ rest.filter keep := by simp
      rw [List.filter_cons_of_pos hk] at hs ⊢
      rw [castRayLoop, castRayLoop]
      rcases hq : rayWallIntersection player rayDir v with _ | ⟨q, e⟩
      · simp only []
        rw [happ, happ2, ← hlen, ← hlen2]
        exact ih (pre ++ [v]) (pre2 ++ [v]) st st2 (by rw [← happ, ← happ2]; exact hs) hm
      · by_cases hd : e < st.2
        · have hd2 : e < st2.2 := hm ▸ hd
          simp only [hd, hd2, if_true]
          rw [happ, happ2, ← hlen, ← hlen2]
          refine ih (pre ++ [v]) (pre2 ++ [v]) _ _ ?_ rfl
          rw [← happ, ← happ2]
          refine ⟨rfl, rfl, rfl, ?_⟩
          show (pre ++ v :: rest)[pre.length]? = (pre2 ++ v :: rest.filter keep)[pre2.length]?
          rw [getElem?_append_cons_length, getElem?_append_cons_length]
        · have hd2 : ¬ e < st2.2 := hm ▸ hd
          simp only [hd, hd2, if_false]
          rw [happ, happ2, ← hlen, ← hlen2]
          exact ih (pre ++ [v]) (pre2 ++ [v]) st st2 (by rw [← happ, ← happ2]; exact hs) hm
    · have hk2 : keep v = false := by simpa using hk
      rw [List.filter_cons_of_neg hk] at hs ⊢
      rw [castRayLoop, hkeep v hk2]
      simp only []
      rw [happ, ← hlen]
      exact ih (pre ++ [v]) pre2 st st2 (by rw [← happ]; exact hs) hm

/-- A wall whose start equals its end has no intersection with any ray: its
determinant is zero. -/
theorem rayWallIntersection_degenerate (R D : Point2D α) (w : Wall α)
    (h : w.start = w.end_) : rayWallIntersection R D w = none := by
  unfold rayWallIntersection
  have h0 : denominator D w = 0 := by simp [denominator, wallDir, h]
  rw [h0, abs_zero, if_pos (by norm_num)]

/-- The computed length of a wall whose start equals its end is `sqrt 0`. -/
theorem wallLength_degenerate (F : Libm α) (w : Wall α) (h : w.start = w.end_) :
    wallLength F w = F.sqrt 0 := by
  simp [wallLength, h]

/-- When `sqrt 0 = 0`, dropping the walls whose start equals their end does not
change the result of the loop of `checkCollision`. -/
theorem checkCollisionLoop_filter (F : Libm α) (h0 : F.sqrt 0 = 0) (pos : Point2D α)
    (walls : List (Wall α)) :
    checkCollisionLoop F pos (walls.filter Wall.nonDegenerate)
      = checkCollisionLoop F pos walls := by
  induction walls with
  | nil => rfl
  | cons v rest ih =>
    by_cases hk : Wall.nonDegenerate v = true
    · rw [List.filter_cons_of_pos hk, checkCollisionLoop, checkCollisionLoop, ih]
    · have hse : v.start = v.end_ := by simpa [Wall.nonDegenerate] using hk
      rw [List.filter_cons_of_neg hk, ih]
      conv_rhs => rw [checkCollisionLoop]
      rw [if_pos (by rw [wallLength_degenerate F v hse, h0])]

/-- No division by zero is evaluated by `rayWallIntersection`: the checked
version returns the result of the plain one. -/
theorem rayWallIntersectionChecked_eq (R D : Point2D α) (w : Wall α) :
    rayWallIntersectionChecked R D w = some (rayWallIntersection R D w) := by
  unfold rayWallIntersectionChecked rayWallIntersection
  by_cases h : |denominator D w| < 1e-10
  · have h2 : |D.x * (w.end_.y - w.start.y) - D.y * (w.end_.x - w.start.x)| < 1e-10 := h
    simp only [h, h2, if_true]
  · have h2 : ¬ |D.x * (w.end_.y - w.start.y) - D.y * (w.end_.x - w.start.x)| < 1e-10 := h
    have hne : D.x * (w.end_.y - w.start.y) - D.y * (w.end_.x - w.start.x) ≠ 0 := by
      intro h0
      apply h2
      rw [h0, abs_zero]
      norm_num
    simp only [h, h2, if_false, checkedDiv, hne, rayT, rayU, denominator, wallDir]
    split_ifs <;> rfl

/-- No division by zero is evaluated by the loop of `checkCollision`: the
checked version returns the result of the plain one. -/
theorem checkCollisionLoopChecked_eq (F : Libm α) (pos : Point2D α) (walls : List (Wall α)) :
    checkCollisionLoopChecked F pos walls = some (checkCollisionLoop F pos walls) := by
  induction walls with
  | nil => rfl
  | cons v rest ih =>
    unfold checkCollisionLoopChecked checkCollisionLoop
    by_cases hL : wallLength F v = 0
    · have hL2 : F.sqrt ((v.end_.x - v.start.x) * (v.end_.x - v.start.x)
          + (v.end_.y - v.start.y) * (v.end_.y - v.start.y)) = 0 := hL
      simp only [hL, hL2, if_true, ih]
    · have hL2 : ¬ F.sqrt ((v.end_.x - v.start.x) * (v.end_.x - v.start.x)
          + (v.end_.y - v.start.y) * (v.end_.y - v.start.y)) = 0 := hL
      have hLL : F.sqrt ((v.end_.x - v.start.x) * (v.end_.x - v.start.x)
          + (v.end_.y - v.start.y) * (v.end_.y - v.start.y))
          * F.sqrt ((v.end_.x - v.start.x) * (v.end_.x - v.start.x)
          + (v.end_.y - v.start.y) * (v.end_.y - v.start.y)) ≠ 0 := mul_ne_zero hL2 hL2
      simp only [hL, hL2, if_false, checkedDiv, hLL, ih, distSq, projPoint, projT, wallLength]
      split_ifs <;> rfl

/-- The strip pushed for a column, when there is one, is built from the hit of
the ray of this column. -/
theorem drawColumn_eq_some [FloorRing α] (F : Libm α) (rc : AdvancedRayCaster α) (w h : Nat)
    (i : Int) (strip : WallStrip α) (hs : drawColumn F rc w h i = some strip) :
    (castRay F rc (rayAngle rc i)).hit = true
      ∧ strip.x = stripX (viewX w) (viewWidth w) rc.numRays i
      ∧ strip.width = stripWidth (viewWidth w) rc.numRays + 1
      ∧ strip.height = wallHeight (viewHeight h)
          (correctedDistance F (castRay F rc (rayAngle rc i)) (rayAngle rc i) rc.playerAngle)
      ∧ strip.y = stripY viewY (viewHeight h) strip.height := by
  unfold drawColumn at hs
  simp only [] at hs
  split_ifs at hs with hhit
  rcases hw : hitWall rc.walls (castRay F rc (rayAngle rc i)) with _ | wall
  · rw [hw] at hs
    cases hs
  · rw [hw] at hs
    simp only [Option.some.injEq] at hs
    refine ⟨hhit, ?_, ?_, ?_, ?_⟩ <;> rw [← hs]

/-- At depth `n`, with more than `n` units of fuel, `drawSierpinskiTriangle`
returns after pushing `3 ^ n` triangles, all of one colour that depends only
on `n` and on the colour passed. -/
theorem drawSierpinskiTriangle_spec [FloorRing α] (n : Nat) :
    ∀ r g blue : Nat, ∃ col : Nat × Nat × Nat,
      ∀ (fuel : Nat) (canvas : List (FilledTriangle α)) (a b c : Point2D α) (alpha : Nat),
        n < fuel →
        ∃ tris : List (FilledTriangle α),
          drawSierpinskiTriangle fuel canvas a b c (n : Int) r g blue alpha
              = some (canvas ++ tris)
            ∧ tris.length = 3 ^ n
            ∧ ∀ t ∈ tris, (t.r, t.g, t.blue) = col ∧ t.alpha = alpha := by
  induction n with
  | zero =>
    intro r g blue
    refine ⟨(r, g, blue), ?_⟩
    intro fuel canvas a b c alpha hfuel
    obtain ⟨k, rfl⟩ : ∃ k, fuel = k + 1 := ⟨fuel - 1, by omega⟩
    refine ⟨[⟨a, b, c, r, g, blue, alpha⟩], ?_, rfl, ?_⟩
    · simp [drawSierpinskiTriangle]
    · intro t ht
      rw [List.mem_singleton] at ht
      subst ht
      exact ⟨rfl, rfl⟩
  | succ n ih =>
    intro r g blue
    obtain ⟨col, hcol⟩ := ih (shiftColor ((n + 1 : Nat) : Int) r g blue).1
      (shiftColor ((n + 1 : Nat) : Int) r g blue).2.1
      (shiftColor ((n + 1 : Nat) : Int) r g blue).2.2
    refine ⟨col, ?_⟩
    intro fuel canvas a b c alpha hfuel
    obtain ⟨k, rfl⟩ : ∃ k, fuel = k + 1 := ⟨fuel - 1, by omega⟩
    have hk : n < k := by omega
    have hne : ¬ (((n + 1 : Nat) : Int) = 0) := by omega
    have hpred : ((n + 1 : Nat) : Int) - 1 = (n : Int) := by omega
    rw [drawSierpinskiTriangle, if_neg hne, hpred]
    obtain ⟨t1, h1, l1, c1⟩ := hcol k canvas a
      ⟨(a.x + b.x) * 0.5, (a.y + b.y) * 0.5⟩ ⟨(c.x + a.x) * 0.5, (c.y + a.y) * 0.5⟩ alpha hk
    obtain ⟨t2, h2, l2, c2⟩ := hcol k (canvas ++ t1)
      ⟨(a.x + b.x) * 0.5, (a.y + b.y) * 0.5⟩ b ⟨(b.x + c.x) * 0.5, (b.y + c.y) * 0.5⟩ alpha hk
    obtain ⟨t3, h3, l3, c3⟩ := hcol k ((canvas ++ t1) ++ t2)
      ⟨(c.x + a.x) * 0.5, (c.y + a.y) * 0.5⟩ ⟨(b.x + c.x) * 0.5, (b.y + c.y) * 0.5⟩ c alpha hk
    refine ⟨t1 ++ (t2 ++ t3), ?_, ?_, ?_⟩
    · simp only [h1, h2, h3]
      simp [List.append_assoc]
    · simp only [List.length_append, l1, l2, l3]
      ring
    · intro t ht
      rcases List.mem_append.mp ht with ht | ht
      · exact c1 t ht
      · rcases List.mem_append.mp ht with ht | ht
        · exact c2 t ht
        · exact c3 t ht

/-- The binary search of `bitLengthAux` keeps `2^acc ≤ k < 2^(acc + 2^steps)`
and ends with the exponent of the leading bit of `k`. -/
theorem bitLengthAux_spec (k : Nat) : ∀ (steps acc : Nat), 2 ^ acc ≤ k →
    k < 2 ^ (acc + 2 ^ steps) →
    2 ^ bitLengthAux k steps acc ≤ k ∧ k < 2 ^ (bitLengthAux k steps acc + 1) := by
  intro steps
  induction steps with
  | zero =>
    intro acc h1 h2
    simpa [bitLengthAux] using And.intro h1 h2
  | succ s ih =>
    intro acc h1 h2
    unfold bitLengthAux
    by_cases h : 2 ^ (acc + 2 ^ s) ≤ k
    · rw [if_pos h]
      refine ih (acc + 2 ^ s) h ?_
      have e : acc + 2 ^ s + 2 ^ s = acc + 2 ^ (s + 1) := by ring
      rw [e]
      exact h2
    · rw [if_neg h]
      exact ih acc h1 (not_le.mp h)

/-- For `0 < k < 2^1024`, `bitLength k` is the number of binary digits of `k`. -/
theorem bitLength_spec (k : Nat) (h0 : 0 < k) (h1 : k < 2 ^ 1024) :
    2 ^ (bitLength k - 1) ≤ k ∧ k < 2 ^ bitLength k := by
  unfold bitLength
  rw [if_neg (by omega)]
  have h := bitLengthAux_spec k 10 0 (by simpa using h0)
    (by
      have e : 0 + 2 ^ 10 = 1024 := by norm_num
      rw [e]
      exact h1)
  simpa using h

/-- The search of `isqrtAux` keeps `r^2 ≤ n < (r + 2^b)^2` and ends with the
integer square root of `n`. -/
theorem isqrtAux_spec (n : Nat) : ∀ (b r : Nat), r * r ≤ n →
    n < (r + 2 ^ b) * (r + 2 ^ b) →
    isqrtAux n b r * isqrtAux n b r ≤ n
      ∧ n < (isqrtAux n b r + 1) * (isqrtAux n b r + 1) := by
  intro b
  induction b with
  | zero =>
    intro r h1 h2
    simpa [isqrtAux] using And.intro h1 h2
  | succ b ih =>
    intro r h1 h2
    unfold isqrtAux
    by_cases h : (r + 2 ^ b) * (r + 2 ^ b) ≤ n
    · rw [if_pos h]
      refine ih (r + 2 ^ b) h ?_
      have e : r + 2 ^ b + 2 ^ b = r + 2 ^ (b + 1) := by ring
      rw [e]
      exact h2
    · rw [if_neg h]
      exact ih r h1 (not_le.mp h)

/-- For `n < 2^1024`, `isqrt n` is the integer square root of `n`. -/
theorem isqrt_spec (n : Nat) (h : n < 2 ^ 1024) :
    isqrt n * isqrt n ≤ n ∧ n < (isqrt n + 1) * (isqrt n + 1) := by
  unfold isqrt
  refine isqrtAux_spec n _ 0 (Nat.zero_le _) ?_
  rw [Nat.zero_add, ← pow_add]
  rcases Nat.eq_zero_or_pos n with h0 | h0
  · subst h0
    positivity
  · have hb := (bitLength_spec n h0 h).2
    refine lt_of_lt_of_le hb (Nat.pow_le_pow_right (by norm_num) ?_)
    omega

/-- The value `roundNat a q quantum` is a multiple of `quantum` within half a
`quantum` of `a / q`, and in the middle of two multiples it is the even one. -/
theorem roundNat_spec (a q quantum : Nat) (hq : 0 < q) (hQ : 0 < quantum) :
    quantum ∣ roundNat a q quantum
      ∧ 2 * a ≤ 2 * (roundNat a q quantum * q) + q * quantum
      ∧ 2 * (roundNat a q quantum * q) ≤ 2 * a + q * quantum
      ∧ (2 * a = 2 * (roundNat a q quantum * q) + q * quantum
          ∨ 2 * (roundNat a q quantum * q) = 2 * a + q * quantum →
          2 ∣ roundNat a q quantum / quantum) := by
  have hd : 0 < q * quantum := Nat.mul_pos hq hQ
  have hdm := Nat.div_add_mod a (q * quantum)
  have hr := Nat.mod_lt a hd
  generalize hm : a / (q * quantum) = m at hdm
  generalize hrr : a % (q * quantum) = r at hdm hr
  have hmul : q * quantum * m = m * quantum * q := by ring
  have hmul1 : (m + 1) * quantum * q = m * quantum * q + q * quantum := by ring
  unfold roundNat
  simp only [hm, hrr]
  by_cases c1 : 2 * r < q * quantum
  · rw [if_pos c1]
    refine ⟨Dvd.intro_left m rfl, by omega, by omega, ?_⟩
    intro h
    omega
  · rw [if_neg c1]
    by_cases c2 : q * quantum < 2 * r
    · rw [if_pos c2]
      refine ⟨Dvd.intro_left (m + 1) rfl, by omega, by omega, ?_⟩
      intro h
      omega
    · rw [if_neg c2]
      by_cases c3 : m % 2 = 0
      · rw [if_pos c3]
        refine ⟨Dvd.intro_left m rfl, by omega, by omega, ?_⟩
        intro _
        rw [Nat.mul_div_cancel _ hQ]
        omega
      · rw [if_neg c3]
        refine ⟨Dvd.intro_left (m + 1) rfl, by omega, by omega, ?_⟩
        intro _
        rw [Nat.mul_div_cancel _ hQ]
        omega

/-- The arithmetic above on well-known binary32 values: the literals `0.1f`
and `1.3f`, the absorption of `1` and the rounding of `3` at `2^24`, `1 / 3`,
the square root of `2`, the underflow of `2^-150` (a tie, rounded to the even
value `0`) and the rounding of `3 * 2^-150` to `2^-148`, the constant `M_PI`
and the value of `fov`. -/
theorem binary32_values :
    f32OfRat 1 10 = 13421773 * 2 ^ 122
      ∧ f32OfRat 13 10 = 5452595 * 2 ^ 127
      ∧ f32Add (f32OfInt 16777216) (f32OfInt 1) = f32OfInt 16777216
      ∧ f32Add (f32OfInt 16777216) (f32OfInt 3) = f32OfInt 16777220
      ∧ f32Div (f32OfInt 1) (f32OfInt 3) = 11184811 * 2 ^ 124
      ∧ f32Sqrt (f32OfInt 2) = 11863283 * 2 ^ 126
      ∧ f32OfRat 1 (2 ^ 150) = 0
      ∧ f32OfRat 3 (2 ^ 150) = 2
      ∧ M_PI64 = 884279719003555 * 2 ^ 101
      ∧ AdvancedRayCaster.new32.fov = 2635359 * 2 ^ 128 := by
  decide!

/-- The colour shift at depth `3` from the colour `(255, 150, 100)`: the
`float` product `90 * 1.3f` is `116.99999...` and converts to `116`. -/
theorem shiftColor_depth_three : shiftColor 3 255 150 100 = (90, 11, 25) := by
  decide!

end Lemmas

/-! ## The ray caster -/

section RayCaster

variable {α : Type} [LinearOrderedField α]

/-- C1 (nearest hit): if `castRay` returns a hit, its distance is at most the
distance `rayWallIntersection` reports for any wall of the list that yields a
valid intersection with the same ray. -/
theorem castRay_nearest (F : Libm α) (rc : AdvancedRayCaster α) (angle : α)
    (hhit : (castRay F rc angle).hit = true) (w : Wall α) (hw : w ∈ rc.walls)
    (p : Point2D α) (d : α)
    (h : rayWallIntersection rc.player ⟨F.cos angle, F.sin angle⟩ w = some (p, d)) :
    (castRay F rc angle).distance ≤ d := by
  unfold castRay at hhit ⊢
  rw [castRayLoop_distance _ _ _ _ _ (by simp [RayHit.default]) hhit]
  exact castRayLoop_min_le_dist _ _ _ _ _ w hw p d h

/-- Witness of C1: from the origin along angle `0`, with a wall at `x = 20`
listed before a wall at `x = 10`, the hit returned is no farther than the
intersection with the wall at `x = 20`. -/
theorem castRay_nearest_witness :
    (castRay (⟨Real.cos, Real.sin, Real.sqrt, Real.pi⟩ : Libm ℝ)
      ((AdvancedRayCaster.new ⟨Real.cos, Real.sin, Real.sqrt, Real.pi⟩).withScene
        [⟨⟨20, -1⟩, ⟨20, 1⟩, 0, 0, 0⟩, ⟨⟨10, -1⟩, ⟨10, 1⟩, 0, 0, 0⟩] ⟨0, 0⟩) 0).distance
      ≤ 20 :=
  castRay_nearest ⟨Real.cos, Real.sin, Real.sqrt, Real.pi⟩
    ((AdvancedRayCaster.new ⟨Real.cos, Real.sin, Real.sqrt, Real.pi⟩).withScene
      [⟨⟨20, -1⟩, ⟨20, 1⟩, 0, 0, 0⟩, ⟨⟨10, -1⟩, ⟨10, 1⟩, 0, 0, 0⟩] ⟨0, 0⟩) 0
    (by norm_num [castRay, castRayLoop, rayWallIntersection, denominator, wallDir, rayT, rayU,
          AdvancedRayCaster.withScene, FLT_MAX, RayHit.default])
    ⟨⟨20, -1⟩, ⟨20, 1⟩, 0, 0, 0⟩
    (by simp [AdvancedRayCaster.withScene])
    ⟨20, 0⟩ 20
    (by norm_num [rayWallIntersection, denominator, wallDir, rayT, rayU,
          AdvancedRayCaster.withScene])

/-- C2 as stated fails: from the origin along angle `0`, the wall from
`(FLT_MAX, -1/2)` to `(FLT_MAX, 1/2)` yields a valid intersection at distance
`FLT_MAX`, yet `castRay` over the scene made of this one wall returns
`hit = false`, because the distance is not below the initial `minDistance`. -/
theorem castRay_miss_despite_intersection :
    (castRay (⟨Real.cos, Real.sin, Real.sqrt, Real.pi⟩ : Libm ℝ)
      ((AdvancedRayCaster.new ⟨Real.cos, Real.sin, Real.sqrt, Real.pi⟩).withScene
        [⟨⟨FLT_MAX, -1 / 2⟩, ⟨FLT_MAX, 1 / 2⟩, 0, 0, 0⟩] ⟨0, 0⟩) 0).hit = false
    ∧ rayWallIntersection (⟨0, 0⟩ : Point2D ℝ) ⟨Real.cos 0, Real.sin 0⟩
        ⟨⟨FLT_MAX, -1 / 2⟩, ⟨FLT_MAX, 1 / 2⟩, 0, 0, 0⟩ = some (⟨FLT_MAX, 0⟩, FLT_MAX) := by
  constructor
  · norm_num [castRay, castRayLoop, rayWallIntersection, denominator, wallDir, rayT, rayU,
      AdvancedRayCaster.withScene, FLT_MAX, RayHit.default]
  · norm_num [rayWallIntersection, denominator, wallDir, rayT, rayU, FLT_MAX]

/-- C2 (amended): `castRay` returns `hit = false` if and only if no wall of the
list yields a valid intersection whose distance is below `FLT_MAX`, the initial
value of `minDistance`; when it returns `hit = true`, the reported wall is an
element of the wall list and the reported point and distance are exactly those
`rayWallIntersection` computes for that wall. -/
theorem castRay_hit_iff (F : Libm α) (rc : AdvancedRayCaster α) (angle : α) :
    ((castRay F rc angle).hit = false ↔
      ∀ w ∈ rc.walls, ∀ p d,
        rayWallIntersection rc.player ⟨F.cos angle, F.sin angle⟩ w = some (p, d) →
          ¬ d < FLT_MAX)
    ∧ ((castRay F rc angle).hit = true →
      ∃ i w, (castRay F rc angle).wall = some i ∧ rc.walls[i]? = some w ∧
        rayWallIntersection rc.player ⟨F.cos angle, F.sin angle⟩ w
          = some ((castRay F rc angle).point, (castRay F rc angle).distance)) := by
  constructor
  · unfold castRay
    rw [castRayLoop_hit_false]
    simp [RayHit.default]
  · unfold castRay
    have h := castRayLoop_wall rc.player ⟨F.cos angle, F.sin angle⟩ [] rc.walls
      (RayHit.default, FLT_MAX) (by simp [RayHit.default])
    simpa using h

/-- Witness of C2 (amended): with a wall at `x = 20` listed before a wall at
`x = 10`, the ray from the origin along angle `0` hits, and the hit is one of
the walls of the list with the values `rayWallIntersection` computes for it. -/
theorem castRay_hit_iff_witness :
    ∃ i w,
      (castRay (⟨Real.cos, Real.sin, Real.sqrt, Real.pi⟩ : Libm ℝ)
        ((AdvancedRayCaster.new ⟨Real.cos, Real.sin, Real.sqrt, Real.pi⟩).withScene
          [⟨⟨20, -1⟩, ⟨20, 1⟩, 0, 0, 0⟩, ⟨⟨10, -1⟩, ⟨10, 1⟩, 0, 0, 0⟩] ⟨0, 0⟩) 0).wall = some i
      ∧ ([⟨⟨20, -1⟩, ⟨20, 1⟩, 0, 0, 0⟩, ⟨⟨10, -1⟩, ⟨10, 1⟩, 0, 0, 0⟩] : List (Wall ℝ))[i]?
          = some w
      ∧ rayWallIntersection (⟨0, 0⟩ : Point2D ℝ) ⟨Real.cos 0, Real.sin 0⟩ w
          = some
            ((castRay (⟨Real.cos, Real.sin, Real.sqrt, Real.pi⟩ : Libm ℝ)
              ((AdvancedRayCaster.new ⟨Real.cos, Real.sin, Real.sqrt, Real.pi⟩).withScene
                [⟨⟨20, -1⟩, ⟨20, 1⟩, 0, 0, 0⟩, ⟨⟨10, -1⟩, ⟨10, 1⟩, 0, 0, 0⟩] ⟨0, 0⟩) 0).point,
             (castRay (⟨Real.cos, Real.sin, Real.sqrt, Real.pi⟩ : Libm ℝ)
              ((AdvancedRayCaster.new ⟨Real.cos, Real.sin, Real.sqrt, Real.pi⟩).withScene
                [⟨⟨20, -1⟩, ⟨20, 1⟩, 0, 0, 0⟩, ⟨⟨10, -1⟩, ⟨10, 1⟩, 0, 0, 0⟩] ⟨0, 0⟩)
                0).distance) :=
  (castRay_hit_iff ⟨Real.cos, Real.sin, Real.sqrt, Real.pi⟩
    ((AdvancedRayCaster.new ⟨Real.cos, Real.sin, Real.sqrt, Real.pi⟩).withScene
      [⟨⟨20, -1⟩, ⟨20, 1⟩, 0, 0, 0⟩, ⟨⟨10, -1⟩, ⟨10, 1⟩, 0, 0, 0⟩] ⟨0, 0⟩) 0).2
    (by norm_num [castRay, castRayLoop, rayWallIntersection, denominator, wallDir, rayT, rayU,
          AdvancedRayCaster.withScene, FLT_MAX, RayHit.default])

/-- C5 (worked example): with the single wall from `(0, 0)` to `(10, 0)`, the
ray from `(5, 5)` in direction `(0, -1)` is reported by `rayWallIntersection`
as the point `(5, 0)` at distance `5`, and `castRay` over this one-wall scene,
at an angle whose cosine is `0` and sine is `-1`, returns `hit = true` with
this point, this distance and this wall. -/
theorem worked_example_hit :
    rayWallIntersection (⟨5, 5⟩ : Point2D α) ⟨0, -1⟩ ⟨⟨0, 0⟩, ⟨10, 0⟩, 0, 0, 0⟩
      = some (⟨5, 0⟩, 5)
    ∧ (∀ (F : Libm α) (rc : AdvancedRayCaster α) (angle : α),
        F.cos angle = 0 → F.sin angle = -1 →
        castRay F (rc.withScene [⟨⟨0, 0⟩, ⟨10, 0⟩, 0, 0, 0⟩] ⟨5, 5⟩) angle
          = { point := ⟨5, 0⟩, distance := 5, wall := some 0, hit := true }) := by
  have h : rayWallIntersection (⟨5, 5⟩ : Point2D α) ⟨0, -1⟩ ⟨⟨0, 0⟩, ⟨10, 0⟩, 0, 0, 0⟩
      = some (⟨5, 0⟩, 5) := by
    norm_num [rayWallIntersection, denominator, wallDir, rayT, rayU]
  refine ⟨h, ?_⟩
  intro F rc angle hc hs
  have h5 : (5 : α) < FLT_MAX := by norm_num [FLT_MAX]
  simp [castRay, castRayLoop, AdvancedRayCaster.withScene, hc, hs, h, h5]

/-- Witness of C5: the real cosine and sine at angle `-(π / 2)` give the
direction `(0, -1)`. -/
theorem worked_example_hit_witness :
    castRay (⟨Real.cos, Real.sin, Real.sqrt, Real.pi⟩ : Libm ℝ)
      ((AdvancedRayCaster.new ⟨Real.cos, Real.sin, Real.sqrt, Real.pi⟩).withScene
        [⟨⟨0, 0⟩, ⟨10, 0⟩, 0, 0, 0⟩] ⟨5, 5⟩) (-(Real.pi / 2))
      = { point := ⟨5, 0⟩, distance := 5, wall := some 0, hit := true } :=
  (@worked_example_hit ℝ _).2 ⟨Real.cos, Real.sin, Real.sqrt, Real.pi⟩
    (AdvancedRayCaster.new ⟨Real.cos, Real.sin, Real.sqrt, Real.pi⟩) (-(Real.pi / 2))
    (by simp) (by simp)

/-- C13 (the distance of a hit is the distance from the origin): if the
direction `(cos a, sin a)` of the cast is a unit vector and `castRay` returns
a hit, then `hit.distance ≥ 0` and `hit.distance` is the Euclidean distance
between the player position and `hit.point`. -/
theorem castRay_distance_is_euclidean (F : Libm α) (rc : AdvancedRayCaster α) (angle : α)
    (hunit : F.cos angle * F.cos angle + F.sin angle * F.sin angle = 1)
    (hhit : (castRay F rc angle).hit = true) :
    0 ≤ (castRay F rc angle).distance
      ∧ IsDistance (castRay F rc angle).distance rc.player (castRay F rc angle).point := by
  obtain ⟨hpos, hx, hy⟩ := castRay_hit_point F rc angle hhit
  refine ⟨hpos.le, hpos.le, ?_⟩
  rw [hx, hy]
  linear_combination
    (-((castRay F rc angle).distance * (castRay F rc angle).distance)) * hunit

/-- Witness of C13: from `(5, 5)` along the real angle `-(π / 2)`, the wall from
`(0, 0)` to `(10, 0)` is hit at the Euclidean distance from the player. -/
theorem castRay_distance_is_euclidean_witness :
    0 ≤ (castRay (⟨Real.cos, Real.sin, Real.sqrt, Real.pi⟩ : Libm ℝ)
        ((AdvancedRayCaster.new ⟨Real.cos, Real.sin, Real.sqrt, Real.pi⟩).withScene
          [⟨⟨0, 0⟩, ⟨10, 0⟩, 0, 0, 0⟩] ⟨5, 5⟩) (-(Real.pi / 2))).distance
      ∧ IsDistance
          (castRay (⟨Real.cos, Real.sin, Real.sqrt, Real.pi⟩ : Libm ℝ)
            ((AdvancedRayCaster.new ⟨Real.cos, Real.sin, Real.sqrt, Real.pi⟩).withScene
              [⟨⟨0, 0⟩, ⟨10, 0⟩, 0, 0, 0⟩] ⟨5, 5⟩) (-(Real.pi / 2))).distance
          ((AdvancedRayCaster.new (⟨Real.cos, Real.sin, Real.sqrt, Real.pi⟩ : Libm ℝ)).withScene
              [⟨⟨0, 0⟩, ⟨10, 0⟩, 0, 0, 0⟩] ⟨5, 5⟩).player
          (castRay (⟨Real.cos, Real.sin, Real.sqrt, Real.pi⟩ : Libm ℝ)
            ((AdvancedRayCaster.new ⟨Real.cos, Real.sin, Real.sqrt, Real.pi⟩).withScene
              [⟨⟨0, 0⟩, ⟨10, 0⟩, 0, 0, 0⟩] ⟨5, 5⟩) (-(Real.pi / 2))).point :=
  castRay_distance_is_euclidean ⟨Real.cos, Real.sin, Real.sqrt, Real.pi⟩
    ((AdvancedRayCaster.new ⟨Real.cos, Real.sin, Real.sqrt, Real.pi⟩).withScene
      [⟨⟨0, 0⟩, ⟨10, 0⟩, 0, 0, 0⟩] ⟨5, 5⟩) (-(Real.pi / 2))
    (by simp)
    (by
      have h5 : (5 : ℝ) < FLT_MAX := by norm_num [FLT_MAX]
      norm_num [castRay, castRayLoop, rayWallIntersection, denominator, wallDir, rayT, rayU,
        AdvancedRayCaster.withScene, h5])

/-- C14 (determinism, input dependence): the `RayHit` returned by `castRay`
depends only on the player position, the angle and the wall list: two states
that agree on these (whatever their heading, lights and other members) give
the same result; the call leaves the state unchanged, so that the result is
the same after any earlier call. -/
theorem castRay_input_dependence (F : Libm α) (rc rc2 : AdvancedRayCaster α)
    (angle earlier : α) :
    (rc.player = rc2.player → rc.walls = rc2.walls →
        castRay F rc angle = castRay F rc2 angle)
      ∧ (castRayCall F rc angle).2 = rc
      ∧ (castRayCall F (castRayCall F rc earlier).2 angle).1 = (castRayCall F rc angle).1 := by
  refine ⟨?_, rfl, rfl⟩
  intro hp hw
  unfold castRay
  rw [hp, hw]

/-- Witness of C14: the built-in scene with its lights removed gives the same
hit as the built-in scene. -/
theorem castRay_input_dependence_witness :
    castRay (⟨Real.cos, Real.sin, Real.sqrt, Real.pi⟩ : Libm ℝ)
        (AdvancedRayCaster.new ⟨Real.cos, Real.sin, Real.sqrt, Real.pi⟩) 0
      = castRay (⟨Real.cos, Real.sin, Real.sqrt, Real.pi⟩ : Libm ℝ)
        ((AdvancedRayCaster.new ⟨Real.cos, Real.sin, Real.sqrt, Real.pi⟩).withLights []) 0 :=
  (castRay_input_dependence ⟨Real.cos, Real.sin, Real.sqrt, Real.pi⟩
    (AdvancedRayCaster.new ⟨Real.cos, Real.sin, Real.sqrt, Real.pi⟩)
    ((AdvancedRayCaster.new ⟨Real.cos, Real.sin, Real.sqrt, Real.pi⟩).withLights []) 0 0).1
    rfl rfl

/-- C17 as stated fails: from the origin along angle `0`, the walls from
`(FLT_MAX, -1/2)` to `(FLT_MAX, 1/2)` and from `(FLT_MAX, -1/4)` to
`(FLT_MAX, 3/4)` both yield a valid intersection at the same minimal distance
`FLT_MAX`, yet `castRay` returns no wall at all, because that distance is not
below the initial `minDistance`. -/
theorem castRay_tie_at_sentinel :
    (castRay (⟨Real.cos, Real.sin, Real.sqrt, Real.pi⟩ : Libm ℝ)
      ((AdvancedRayCaster.new ⟨Real.cos, Real.sin, Real.sqrt, Real.pi⟩).withScene
        [⟨⟨FLT_MAX, -1 / 2⟩, ⟨FLT_MAX, 1 / 2⟩, 1, 1, 1⟩,
         ⟨⟨FLT_MAX, -1 / 4⟩, ⟨FLT_MAX, 3 / 4⟩, 2, 2, 2⟩] ⟨0, 0⟩) 0).wall = none
    ∧ rayWallIntersection (⟨0, 0⟩ : Point2D ℝ) ⟨Real.cos 0, Real.sin 0⟩
        ⟨⟨FLT_MAX, -1 / 2⟩, ⟨FLT_MAX, 1 / 2⟩, 1, 1, 1⟩ = some (⟨FLT_MAX, 0⟩, FLT_MAX)
    ∧ rayWallIntersection (⟨0, 0⟩ : Point2D ℝ) ⟨Real.cos 0, Real.sin 0⟩
        ⟨⟨FLT_MAX, -1 / 4⟩, ⟨FLT_MAX, 3 / 4⟩, 2, 2, 2⟩ = some (⟨FLT_MAX, 0⟩, FLT_MAX) := by
  refine ⟨?_, ?_, ?_⟩
  · norm_num [castRay, castRayLoop, rayWallIntersection, denominator, wallDir, rayT, rayU,
      AdvancedRayCaster.withScene, FLT_MAX, RayHit.default]
  · norm_num [rayWallIntersection, denominator, wallDir, rayT, rayU, FLT_MAX]
  · norm_num [rayWallIntersection, denominator, wallDir, rayT, rayU, FLT_MAX]

/-- C17 (amended; tie-breaking): let the wall of index `i0` yield a valid
intersection `(p0, d0)` with `d0 < FLT_MAX`, let `d0` be minimal among the
valid intersections of the walls of the list, and let every wall before `i0`
with a valid intersection be strictly farther than `d0` (so `i0` is the first
wall at the minimal distance).  Then `castRay` returns exactly the hit on the
wall `i0`, with the point `p0` and the distance `d0`.  In the loop, a wall
whose distance is not strictly below `minDistance` leaves the recorded hit and
`minDistance` as they are. -/
theorem castRay_first_wins (F : Libm α) (rc : AdvancedRayCaster α) (angle : α) :
    (∀ (i0 : Nat) (w0 : Wall α) (p0 : Point2D α) (d0 : α),
      rc.walls[i0]? = some w0 →
      rayWallIntersection rc.player ⟨F.cos angle, F.sin angle⟩ w0 = some (p0, d0) →
      d0 < FLT_MAX →
      (∀ (j : Nat) (w : Wall α) (p : Point2D α) (d : α), rc.walls[j]? = some w →
        rayWallIntersection rc.player ⟨F.cos angle, F.sin angle⟩ w = some (p, d) → d0 ≤ d) →
      (∀ (j : Nat) (w : Wall α) (p : Point2D α) (d : α), j < i0 → rc.walls[j]? = some w →
        rayWallIntersection rc.player ⟨F.cos angle, F.sin angle⟩ w = some (p, d) → d0 < d) →
      castRay F rc angle = { point := p0, distance := d0, wall := some i0, hit := true })
    ∧ (∀ (wall : Wall α) (rest : List (Wall α)) (i : Nat) (st : RayHit α × α)
        (p : Point2D α) (d : α),
        rayWallIntersection rc.player ⟨F.cos angle, F.sin angle⟩ wall = some (p, d) →
        ¬ d < st.2 →
        castRayLoop rc.player ⟨F.cos angle, F.sin angle⟩ (wall :: rest) i st
          = castRayLoop rc.player ⟨F.cos angle, F.sin angle⟩ rest (i + 1) st) := by
  constructor
  · intro i0 w0 p0 d0 hw0 h0 hlt hmin hfirst
    have hmem : w0 ∈ rc.walls := List.getElem?_mem hw0
    have hhit : (castRay F rc angle).hit = true := by
      by_contra hne
      have hf : (castRay F rc angle).hit = false := by simpa using hne
      unfold castRay at hf
      rw [castRayLoop_hit_false] at hf
      exact hf.2 w0 hmem p0 d0 h0 hlt
    obtain ⟨i, w, hi, hw, hq⟩ := castRay_hit_wall F rc angle hhit
    have hle : (castRay F rc angle).distance ≤ d0 := by
      unfold castRay at hhit ⊢
      rw [castRayLoop_distance _ _ _ _ _ (by simp [RayHit.default]) hhit]
      exact castRayLoop_min_le_dist _ _ _ _ _ w0 hmem p0 d0 h0
    have hge : d0 ≤ (castRay F rc angle).distance := hmin i w _ _ hw hq
    have hd : (castRay F rc angle).distance = d0 := le_antisymm hle hge
    have hfst := castRayLoop_first rc.player ⟨F.cos angle, F.sin angle⟩ [] rc.walls
      (RayHit.default, FLT_MAX) (by simp) (by simp [RayHit.default])
    simp only [List.length_nil, List.nil_append] at hfst
    obtain ⟨i2, hi2, hlt2⟩ := hfst hhit
    have hii : i2 = i := by
      have h := hi2
      unfold castRay at hi
      rw [hi] at h
      exact (Option.some.inj h).symm
    subst hii
    have hi0 : i2 = i0 := by
      rcases Nat.lt_trichotomy i2 i0 with h | h | h
      · have := hfirst i2 w _ _ h hw hq
        rw [hd] at this
        exact absurd this (lt_irrefl _)
      · exact h
      · have := hlt2 i0 w0 p0 d0 h hw0 h0
        unfold castRay at hd
        rw [hd] at this
        exact absurd this (lt_irrefl _)
    subst hi0
    rw [hw0] at hw
    cases hw
    rw [h0] at hq
    simp only [Option.some.injEq, Prod.mk.injEq] at hq
    rcases hc : castRay F rc angle with ⟨pt, dist, wl, ht⟩
    rw [hc] at hhit hi hq
    simp only at hhit hi hq
    rw [hhit, hi, ← hq.1, ← hq.2]
  · intro wall rest i st p d hq hd
    rw [castRayLoop, hq]
    simp only [hd, if_false]

/-- Witness of C17 (amended): from the origin along angle `0`, with a wall at
`x = 20` listed first and two walls at `x = 10` listed after it, the two last
walls tie at the minimal distance `10` and `castRay` returns the first of them,
the wall of index `1`, with the point `(10, 0)`. -/
theorem castRay_first_wins_witness :
    castRay (⟨Real.cos, Real.sin, Real.sqrt, Real.pi⟩ : Libm ℝ)
        ((AdvancedRayCaster.new ⟨Real.cos, Real.sin, Real.sqrt, Real.pi⟩).withScene
          [⟨⟨20, -1⟩, ⟨20, 1⟩, 3, 3, 3⟩, ⟨⟨10, -1⟩, ⟨10, 1⟩, 1, 1, 1⟩,
           ⟨⟨10, -2⟩, ⟨10, 2⟩, 2, 2, 2⟩] ⟨0, 0⟩) 0
      = { point := ⟨10, 0⟩, distance := 10, wall := some 1, hit := true } :=
  (castRay_first_wins (⟨Real.cos, Real.sin, Real.sqrt, Real.pi⟩ : Libm ℝ)
    ((AdvancedRayCaster.new ⟨Real.cos, Real.sin, Real.sqrt, Real.pi⟩).withScene
      [⟨⟨20, -1⟩, ⟨20, 1⟩, 3, 3, 3⟩, ⟨⟨10, -1⟩, ⟨10, 1⟩, 1, 1, 1⟩,
       ⟨⟨10, -2⟩, ⟨10, 2⟩, 2, 2, 2⟩] ⟨0, 0⟩) 0).1
    1 ⟨⟨10, -1⟩, ⟨10, 1⟩, 1, 1, 1⟩ ⟨10, 0⟩ 10 rfl
    (by norm_num [rayWallIntersection, denominator, wallDir, rayT, rayU,
          AdvancedRayCaster.withScene])
    (by norm_num [FLT_MAX])
    (by
      intro j w p d hw hq
      have hcases : w = ⟨⟨20, -1⟩, ⟨20, 1⟩, 3, 3, 3⟩ ∨ w = ⟨⟨10, -1⟩, ⟨10, 1⟩, 1, 1, 1⟩
          ∨ w = ⟨⟨10, -2⟩, ⟨10, 2⟩, 2, 2, 2⟩ := by
        have hm := List.getElem?_mem hw
        simpa [AdvancedRayCaster.withScene] using hm
      rcases hcases with rfl | rfl | rfl <;>
        · rw [rayWallIntersection_eq_some] at hq
          rw [hq.2.2.2.2.2]
          norm_num [rayT, denominator, wallDir, AdvancedRayCaster.withScene])
    (by
      intro j w p d hj hw hq
      have hj0 : j = 0 := by omega
      subst hj0
      simp only [AdvancedRayCaster.withScene, List.getElem?_cons_zero, Option.some.injEq] at hw
      subst hw
      rw [rayWallIntersection_eq_some] at hq
      rw [hq.2.2.2.2.2]
      norm_num [rayT, denominator, wallDir, AdvancedRayCaster.withScene])

end RayCaster

/-! ## The mover -/

section Mover

variable {α : Type} [LinearOrderedField α]

/-- C7 (boundary containment): after `updatePlayer`, for every prior state,
wall list and time, the position satisfies `60 ≤ x ≤ 740` and `60 ≤ y ≤ 540`. -/
theorem boundary_containment (F : Libm α) (rc : AdvancedRayCaster α) (time : α) :
    60 ≤ (updatePlayer F rc time).player.x ∧ (updatePlayer F rc time).player.x ≤ 740
      ∧ 60 ≤ (updatePlayer F rc time).player.y ∧ (updatePlayer F rc time).player.y ≤ 540 := by
  have key : ∀ hi x : α, 60 ≤ hi → 60 ≤ stdMax 60 (stdMin hi x) ∧ stdMax 60 (stdMin hi x) ≤ hi := by
    intro hi x h
    rw [stdMax_eq_max, stdMin_eq_min]
    exact ⟨le_max_left _ _, max_le h (min_le_left _ _)⟩
  rw [updatePlayer_player]
  by_cases hc : checkCollision F rc (candidatePos F rc time) = true
  · rw [if_pos hc]
    exact ⟨(key 740 _ (by norm_num)).1, (key 740 _ (by norm_num)).2,
      (key 540 _ (by norm_num)).1, (key 540 _ (by norm_num)).2⟩
  · rw [if_neg hc]
    exact ⟨(key 740 _ (by norm_num)).1, (key 740 _ (by norm_num)).2,
      (key 540 _ (by norm_num)).1, (key 540 _ (by norm_num)).2⟩

/-- C8 fails on the code: from the constructed initial state, with `cos` and
`sin` taking values in `[-1, 1]` and an exact square root, the candidate move
of every frame is rejected and the player is still at `(400, 300)` after any
number `n` of frames run with the times `0, 1, 2, ...`. -/
theorem player_never_moves (F : Libm α) (hcos : ∀ x : α, |F.cos x| ≤ 1)
    (hsin : ∀ x : α, |F.sin x| ≤ 1) (hsqrt : ∀ x : α, 0 ≤ x → F.sqrt x * F.sqrt x = x)
    (n : Nat) :
    (runFrames F n (AdvancedRayCaster.new F) 0).player = ⟨400, 300⟩
      ∧ checkCollision F (runFrames F n (AdvancedRayCaster.new F) 0)
          (candidatePos F (runFrames F n (AdvancedRayCaster.new F) 0) n) = true := by
  have inv : ∀ (k : Nat) (rc : AdvancedRayCaster α) (time : α),
      rc.walls = (AdvancedRayCaster.new F).walls → rc.moveSpeed = 3 →
      rc.player = ⟨400, 300⟩ →
      (runFrames F k rc time).walls = (AdvancedRayCaster.new F).walls
        ∧ (runFrames F k rc time).moveSpeed = 3
        ∧ (runFrames F k rc time).player = ⟨400, 300⟩ := by
    intro k
    induction k with
    | zero => intro rc time h1 h2 h3; exact ⟨h1, h2, h3⟩
    | succ k ih =>
      intro rc time h1 h2 h3
      unfold runFrames
      have hs := updatePlayer_scene F rc time
      refine ih _ _ (hs.1.trans h1) (hs.2.trans h2) ?_
      rw [updatePlayer_player,
        if_pos (start_candidate_collides F hcos hsin hsqrt rc time h1 h2 h3), h3]
      rw [clamp_of_mem _ _ _ (by norm_num) (by norm_num),
        clamp_of_mem _ _ _ (by norm_num) (by norm_num)]
  obtain ⟨h1, h2, h3⟩ := inv n (AdvancedRayCaster.new F) 0 rfl rfl rfl
  exact ⟨h3, start_candidate_collides F hcos hsin hsqrt _ _ h1 h2 h3⟩

/-- Witness of the failure of C8 over the reals: after `1000` frames the
player is still at `(400, 300)`. -/
theorem player_never_moves_witness :
    (runFrames (⟨Real.cos, Real.sin, Real.sqrt, Real.pi⟩ : Libm ℝ) 1000
      (AdvancedRayCaster.new ⟨Real.cos, Real.sin, Real.sqrt, Real.pi⟩) 0).player
      = ⟨400, 300⟩ :=
  (player_never_moves ⟨Real.cos, Real.sin, Real.sqrt, Real.pi⟩ Real.abs_cos_le_one
    Real.abs_sin_le_one (fun _ hx => Real.mul_self_sqrt hx) 1000).1

end Mover

/-! ## The lighting model -/

section Lighting

variable {α : Type} [LinearOrderedField α]

/-- C9 (lighting bounds): for every point and every list of lights whose
intensities are positive, `calculateLighting` returns a value between `0.1`
and `1.0`. -/
theorem lighting_bounds (F : Libm α) (rc : AdvancedRayCaster α) (point : Point2D α)
    (hpos : ∀ l ∈ rc.lights, 0 < l.intensity) :
    0.1 ≤ calculateLighting F rc point ∧ calculateLighting F rc point ≤ 1 := by
  unfold calculateLighting
  rw [stdMin_eq_min]
  refine ⟨le_min (by norm_num) ?_, min_le_left _ _⟩
  exact lighting_foldl_ge F point rc.lights 0.1 (fun l hl => (hpos l hl).le)

/-- Witness of C9: the built-in lights, over the reals, seen from `(400, 300)`. -/
theorem lighting_bounds_witness :
    0.1 ≤ calculateLighting (⟨Real.cos, Real.sin, Real.sqrt, Real.pi⟩ : Libm ℝ)
        (AdvancedRayCaster.new ⟨Real.cos, Real.sin, Real.sqrt, Real.pi⟩) ⟨400, 300⟩
      ∧ calculateLighting (⟨Real.cos, Real.sin, Real.sqrt, Real.pi⟩ : Libm ℝ)
        (AdvancedRayCaster.new ⟨Real.cos, Real.sin, Real.sqrt, Real.pi⟩) ⟨400, 300⟩ ≤ 1 :=
  lighting_bounds ⟨Real.cos, Real.sin, Real.sqrt, Real.pi⟩
    (AdvancedRayCaster.new ⟨Real.cos, Real.sin, Real.sqrt, Real.pi⟩) ⟨400, 300⟩
    (by
      intro l hl
      simp only [AdvancedRayCaster.new, List.mem_cons, List.mem_singleton, List.not_mem_nil,
        or_false] at hl
      rcases hl with rfl | rfl | rfl <;> norm_num)

/-- C10 as stated fails: for the single light at `(0, 0)` of intensity `100`
and the point `(0, 0)`, the formula summing over all lights gives the clamped
maximum `1`, but `calculateLighting` skips the light (its distance is not
positive) and returns the ambient floor `0.1`. -/
theorem lighting_skips_light_at_point :
    calculateLighting (⟨Real.cos, Real.sin, Real.sqrt, Real.pi⟩ : Libm ℝ)
        ((AdvancedRayCaster.new ⟨Real.cos, Real.sin, Real.sqrt, Real.pi⟩).withLights
          [⟨⟨0, 0⟩, 100, 255, 255, 255⟩]) ⟨0, 0⟩ = 0.1
      ∧ lightingFormulaAll (⟨Real.cos, Real.sin, Real.sqrt, Real.pi⟩ : Libm ℝ)
          [⟨⟨0, 0⟩, 100, 255, 255, 255⟩] ⟨0, 0⟩ = 1 := by
  constructor
  · norm_num [calculateLighting, AdvancedRayCaster.withLights, lightingStep, lightDistance,
      stdMin]
  · norm_num [lightingFormulaAll, lightDistance]

/-- C10 (amended): `calculateLighting` equals `min(1.0, 0.1 + sum)` where the
sum of `intensity / (dist * 0.01 + 1) * 0.01` runs over the lights whose
computed distance to the point is positive; a light whose computed distance
is not positive is omitted, so that, when `sqrt 0 = 0`, a single light at
`(0, 0)` of intensity `100` seen from `(0, 0)` gives the ambient floor `0.1`. -/
theorem lighting_formula (F : Libm α) (rc : AdvancedRayCaster α) (point : Point2D α) :
    calculateLighting F rc point = lightingFormulaPositive F rc.lights point
      ∧ (F.sqrt 0 = 0 →
          calculateLighting F (rc.withLights [⟨⟨0, 0⟩, 100, 255, 255, 255⟩]) ⟨0, 0⟩ = 0.1) := by
  constructor
  · unfold calculateLighting lightingFormulaPositive
    rw [stdMin_eq_min, lighting_foldl_eq]
  · intro h0
    norm_num [calculateLighting, AdvancedRayCaster.withLights, lightingStep, lightDistance,
      stdMin, h0]

/-- Witness of C10 (amended): over the reals `sqrt 0 = 0`. -/
theorem lighting_formula_witness :
    calculateLighting (⟨Real.cos, Real.sin, Real.sqrt, Real.pi⟩ : Libm ℝ)
      ((AdvancedRayCaster.new ⟨Real.cos, Real.sin, Real.sqrt, Real.pi⟩).withLights
        [⟨⟨0, 0⟩, 100, 255, 255, 255⟩]) ⟨0, 0⟩ = 0.1 :=
  (lighting_formula ⟨Real.cos, Real.sin, Real.sqrt, Real.pi⟩
    (AdvancedRayCaster.new ⟨Real.cos, Real.sin, Real.sqrt, Real.pi⟩) ⟨0, 0⟩).2 Real.sqrt_zero

end Lighting

/-! ## Walls of zero length -/

section Degenerate

variable {α : Type} [LinearOrderedField α]

/-- C16 (zero-length walls are skipped): when `sqrt 0 = 0`, a wall whose start
equals its end never makes `checkCollision` report a collision, even at the
position of the wall, has no intersection with any ray and is never the wall
of a hit returned by `castRay`; removing all such walls from the list changes
neither the result of `checkCollision` nor the hit returned by `castRay`; and
neither function evaluates a division by zero. -/
theorem zero_length_walls_skipped (F : Libm α) (h0 : F.sqrt 0 = 0) :
    (∀ (w : Wall α) (pos : Point2D α), w.start = w.end_ →
        checkCollisionLoop F pos [w] = false)
      ∧ (∀ (rc : AdvancedRayCaster α) (pos : Point2D α),
        checkCollision F (rc.withScene (rc.walls.filter Wall.nonDegenerate) rc.player) pos
          = checkCollision F rc pos)
      ∧ (∀ (R D : Point2D α) (w : Wall α), w.start = w.end_ →
        rayWallIntersection R D w = none)
      ∧ (∀ (rc : AdvancedRayCaster α) (angle : α), (castRay F rc angle).hit = true →
        ∃ i w, (castRay F rc angle).wall = some i ∧ rc.walls[i]? = some w ∧
          w.start ≠ w.end_)
      ∧ (∀ (rc : AdvancedRayCaster α) (angle : α),
        sameHit rc.walls (castRay F rc angle)
          (rc.walls.filter Wall.nonDegenerate)
          (castRay F (rc.withScene (rc.walls.filter Wall.nonDegenerate) rc.player) angle))
      ∧ (∀ (R D : Point2D α) (w : Wall α),
        rayWallIntersectionChecked R D w = some (rayWallIntersection R D w))
      ∧ (∀ (pos : Point2D α) (walls : List (Wall α)),
        checkCollisionLoopChecked F pos walls = some (checkCollisionLoop F pos walls)) := by
  refine ⟨?_, ?_, rayWallIntersection_degenerate, ?_, ?_, rayWallIntersectionChecked_eq,
    checkCollisionLoopChecked_eq F⟩
  · intro w pos hw
    have hf := checkCollisionLoop_filter F h0 pos [w]
    have hk : ¬ Wall.nonDegenerate w = true := by simp [Wall.nonDegenerate, hw]
    rw [List.filter_cons_of_neg hk] at hf
    rw [← hf]
    rfl
  · intro rc pos
    exact checkCollisionLoop_filter F h0 pos rc.walls
  · intro rc angle hhit
    obtain ⟨i, w, hi, hw, hq⟩ := castRay_hit_wall F rc angle hhit
    refine ⟨i, w, hi, hw, fun hse => ?_⟩
    rw [rayWallIntersection_degenerate _ _ w hse] at hq
    cases hq
  · intro rc angle
    have h := castRayLoop_filter rc.player ⟨F.cos angle, F.sin angle⟩ Wall.nonDegenerate
      (fun w hw => rayWallIntersection_degenerate _ _ w (by simpa [Wall.nonDegenerate] using hw))
      [] [] rc.walls (RayHit.default, FLT_MAX) (RayHit.default, FLT_MAX)
      ⟨rfl, rfl, rfl, rfl⟩ rfl
    exact h.1

/-- Witness of C16: over the reals `sqrt 0 = 0`; the wall reduced to the point
`(3, 4)` does not collide with the position `(3, 4)`. -/
theorem zero_length_walls_skipped_witness :
    checkCollisionLoop (⟨Real.cos, Real.sin, Real.sqrt, Real.pi⟩ : Libm ℝ) ⟨3, 4⟩
      [⟨⟨3, 4⟩, ⟨3, 4⟩, 0, 0, 0⟩] = false :=
  (zero_length_walls_skipped (⟨Real.cos, Real.sin, Real.sqrt, Real.pi⟩ : Libm ℝ)
    Real.sqrt_zero).1 ⟨⟨3, 4⟩, ⟨3, 4⟩, 0, 0, 0⟩ ⟨3, 4⟩ rfl

end Degenerate

/-! ## The projector -/

section Projector

variable {α : Type} [LinearOrderedField α]

/-- C11 (fisheye bound): when `cos` takes no value above `1`, for every hit
returned by `castRay`, every ray angle and every heading,
`correctedDistance = hit.distance * cos(rayAngle - playerAngle)` is at most
`hit.distance`. -/
theorem fisheye_bound (F : Libm α) (hcos : ∀ x : α, F.cos x ≤ 1) (rc : AdvancedRayCaster α)
    (angle playerAngle : α) (hhit : (castRay F rc angle).hit = true) :
    correctedDistance F (castRay F rc angle) angle playerAngle
      ≤ (castRay F rc angle).distance := by
  have hpos := (castRay_hit_point F rc angle hhit).1
  unfold correctedDistance
  calc (castRay F rc angle).distance * F.cos (angle - playerAngle)
      ≤ (castRay F rc angle).distance * 1 :=
        mul_le_mul_of_nonneg_left (hcos _) hpos.le
    _ = (castRay F rc angle).distance := mul_one _

/-- Witness of C11: the ray from `(5, 5)` along the real angle `-(π / 2)` hits
the wall from `(0, 0)` to `(10, 0)`; the heading is `0`. -/
theorem fisheye_bound_witness :
    correctedDistance (⟨Real.cos, Real.sin, Real.sqrt, Real.pi⟩ : Libm ℝ)
        (castRay (⟨Real.cos, Real.sin, Real.sqrt, Real.pi⟩ : Libm ℝ)
          ((AdvancedRayCaster.new ⟨Real.cos, Real.sin, Real.sqrt, Real.pi⟩).withScene
            [⟨⟨0, 0⟩, ⟨10, 0⟩, 0, 0, 0⟩] ⟨5, 5⟩) (-(Real.pi / 2)))
        (-(Real.pi / 2)) 0
      ≤ (castRay (⟨Real.cos, Real.sin, Real.sqrt, Real.pi⟩ : Libm ℝ)
          ((AdvancedRayCaster.new ⟨Real.cos, Real.sin, Real.sqrt, Real.pi⟩).withScene
            [⟨⟨0, 0⟩, ⟨10, 0⟩, 0, 0, 0⟩] ⟨5, 5⟩) (-(Real.pi / 2))).distance :=
  fisheye_bound ⟨Real.cos, Real.sin, Real.sqrt, Real.pi⟩ Real.cos_le_one
    ((AdvancedRayCaster.new ⟨Real.cos, Real.sin, Real.sqrt, Real.pi⟩).withScene
      [⟨⟨0, 0⟩, ⟨10, 0⟩, 0, 0, 0⟩] ⟨5, 5⟩) (-(Real.pi / 2)) 0
    (by
      have h5 : (5 : ℝ) < FLT_MAX := by norm_num [FLT_MAX]
      norm_num [castRay, castRayLoop, rayWallIntersection, denominator, wallDir, rayT, rayU,
        AdvancedRayCaster.withScene, h5])

/-- C19 as stated fails: with `viewHeight = 100`, the corrected distances `0`
and `1` both give the capped height `100`, so the nearer wall is not strictly
taller. -/
theorem wallHeight_not_strict :
    wallHeight (100 : ℚ) 0 = 100 ∧ wallHeight (100 : ℚ) 1 = 100
      ∧ ¬ wallHeight (100 : ℚ) 0 > wallHeight (100 : ℚ) 1 := by
  norm_num [wallHeight, stdMin]

/-- C19 (amended): for `viewHeight ≥ 0` and a corrected distance `d ≥ 0`,
`wallHeight = min(viewHeight, viewHeight * 150 / (d + 1))` satisfies
`0 ≤ wallHeight ≤ viewHeight`; a nearer wall is never shorter: for
`0 ≤ d1 < d2`, `wallHeight(d1) ≥ wallHeight(d2)`, and it is strictly taller
when moreover `viewHeight > 0` and `d2 > 149` (the cap `viewHeight` is reached
for every `d ≤ 149`). -/
theorem strip_height (viewHeight d1 d2 : α) (hv : 0 ≤ viewHeight) (hd1 : 0 ≤ d1)
    (hlt : d1 < d2) :
    (0 ≤ wallHeight viewHeight d1 ∧ wallHeight viewHeight d1 ≤ viewHeight)
      ∧ wallHeight viewHeight d2 ≤ wallHeight viewHeight d1
      ∧ (d1 ≤ 149 → wallHeight viewHeight d1 = viewHeight)
      ∧ (0 < viewHeight → 149 < d2 → wallHeight viewHeight d2 < wallHeight viewHeight d1) := by
  have h1 : 0 < d1 + 1 := by linarith
  have h2 : 0 < d2 + 1 := by linarith
  have hmono : viewHeight * 150 / (d2 + 1) ≤ viewHeight * 150 / (d1 + 1) :=
    div_le_div_of_nonneg_left (mul_nonneg hv (by norm_num)) h1 (by linarith)
  simp only [wallHeight, stdMin_eq_min]
  refine ⟨⟨le_min hv (div_nonneg (mul_nonneg hv (by norm_num)) h1.le), min_le_left _ _⟩,
    min_le_min_left _ hmono, ?_, ?_⟩
  · intro hcap
    apply min_eq_left
    rw [le_div_iff₀ h1]
    nlinarith
  · intro hvpos h149
    have hstrict : viewHeight * 150 / (d2 + 1) < viewHeight * 150 / (d1 + 1) :=
      div_lt_div_of_pos_left (mul_pos hvpos (by norm_num)) h1 (by linarith)
    have hbelow : viewHeight * 150 / (d2 + 1) < viewHeight := by
      rw [div_lt_iff₀ h2]
      nlinarith
    exact lt_of_le_of_lt (min_le_right _ _) (lt_min hbelow hstrict)

/-- Witness of C19 (amended): heights at the distances `199` and `299` for
`viewHeight = 100`. -/
theorem strip_height_witness :
    wallHeight (100 : ℚ) 299 < wallHeight (100 : ℚ) 199 :=
  (strip_height (100 : ℚ) 199 299 (by norm_num) (by norm_num) (by norm_num)).2.2.2
    (by norm_num) (by norm_num)

/-- C21 as stated fails: over the reals, in the built-in configuration
(`numRays = 120`) with the heading `-(π / 5)` and the canvas `800 x 600`, the
ray of the last column `119` has angle `0` and hits the wall from `(10, -1)` to
`(10, 1)` from the origin; the strip pushed is `viewWidth / 120 + 1` wide, not
`viewWidth / 120`, and it ends at `viewX + viewWidth + 1`, past the right edge
of the projection area. -/
theorem last_strip_past_right_edge :
    ∃ strip : WallStrip ℝ,
      drawColumn (⟨Real.cos, Real.sin, Real.sqrt, Real.pi⟩ : Libm ℝ)
          (((AdvancedRayCaster.new ⟨Real.cos, Real.sin, Real.sqrt, Real.pi⟩).withScene
            [⟨⟨10, -1⟩, ⟨10, 1⟩, 0, 0, 0⟩] ⟨0, 0⟩).withHeading (-(Real.pi / 5)))
          800 600 119 = some strip
        ∧ strip.width = viewWidth 800 / 120 + 1
        ∧ strip.width ≠ viewWidth 800 / 120
        ∧ strip.x + strip.width = viewX 800 + viewWidth 800 + 1
        ∧ viewX 800 + viewWidth 800 < strip.x + strip.width := by
  have hangle : rayAngle
      (((AdvancedRayCaster.new (⟨Real.cos, Real.sin, Real.sqrt, Real.pi⟩ : Libm ℝ)).withScene
        [⟨⟨10, -1⟩, ⟨10, 1⟩, 0, 0, 0⟩] ⟨0, 0⟩).withHeading (-(Real.pi / 5))) 119 = 0 := by
    simp only [rayAngle, AdvancedRayCaster.withHeading, AdvancedRayCaster.withScene,
      AdvancedRayCaster.new]
    norm_num
    ring
  have h10 : (10 : ℝ) < FLT_MAX := by norm_num [FLT_MAX]
  have hcast : castRay (⟨Real.cos, Real.sin, Real.sqrt, Real.pi⟩ : Libm ℝ)
      (((AdvancedRayCaster.new ⟨Real.cos, Real.sin, Real.sqrt, Real.pi⟩).withScene
        [⟨⟨10, -1⟩, ⟨10, 1⟩, 0, 0, 0⟩] ⟨0, 0⟩).withHeading (-(Real.pi / 5))) 0
      = { point := ⟨10, 0⟩, distance := 10, wall := some 0, hit := true } := by
    norm_num [castRay, castRayLoop, rayWallIntersection, denominator, wallDir, rayT, rayU,
      AdvancedRayCaster.withScene, AdvancedRayCaster.withHeading, h10]
  unfold drawColumn
  simp only [hangle]
  simp only [hcast]
  simp only [if_true, hitWall, Option.bind_some, AdvancedRayCaster.withScene,
    AdvancedRayCaster.withHeading, List.getElem?_cons_zero]
  refine ⟨_, rfl, ?_, ?_, ?_, ?_⟩
  · norm_num [stripWidth, AdvancedRayCaster.new]
  · norm_num [stripWidth, AdvancedRayCaster.new]
  · norm_num [stripX, stripWidth, AdvancedRayCaster.new]
    ring
  · norm_num [stripX, stripWidth, AdvancedRayCaster.new, viewX, viewWidth]

/-- C21 (amended): the strip pushed for column `i` starts at
`x = viewX + i * (viewWidth / N)` with `N = numRays`, the columns being
`viewWidth / N` apart, and the rectangle pushed is `viewWidth / N + 1` wide;
column `0` starts at `viewX`, every strip ends `1` past the start of the next
column, and for `N > 0` the strip of the last column `N - 1` ends at
`viewX + viewWidth + 1`: the strips cover the projection area with an overlap
of `1` and reach `1` past its right edge. -/
theorem column_geometry [FloorRing α] (F : Libm α) (rc : AdvancedRayCaster α) (w h : Nat) :
    (∀ (i : Int) (strip : WallStrip α), drawColumn F rc w h i = some strip →
        strip.x = viewX w + (i : α) * (viewWidth w / (rc.numRays : α))
          ∧ strip.width = viewWidth w / (rc.numRays : α) + 1)
      ∧ stripX (viewX w : α) (viewWidth w) rc.numRays 0 = (viewX w : α)
      ∧ (∀ i : Int, stripX (viewX w : α) (viewWidth w) rc.numRays (i + 1)
          = stripX (viewX w : α) (viewWidth w) rc.numRays i + viewWidth w / (rc.numRays : α))
      ∧ (∀ i : Int, stripX (viewX w : α) (viewWidth w) rc.numRays i
            + (stripWidth (viewWidth w : α) rc.numRays + 1)
          = stripX (viewX w : α) (viewWidth w) rc.numRays (i + 1) + 1)
      ∧ (0 < rc.numRays →
          stripX (viewX w : α) (viewWidth w) rc.numRays (rc.numRays - 1)
            + (stripWidth (viewWidth w : α) rc.numRays + 1)
          = (viewX w : α) + viewWidth w + 1) := by
  refine ⟨?_, ?_, ?_, ?_, ?_⟩
  · intro i strip hs
    obtain ⟨-, hx, hwd, -, -⟩ := drawColumn_eq_some F rc w h i strip hs
    exact ⟨hx, hwd⟩
  · simp [stripX]
  · intro i
    simp only [stripX, stripWidth]
    push_cast
    ring
  · intro i
    simp only [stripX, stripWidth]
    push_cast
    ring
  · intro hN
    have hne : (rc.numRays : α) ≠ 0 := by
      have h : (0 : α) < (rc.numRays : α) := Int.cast_pos.mpr hN
      exact ne_of_gt h
    simp only [stripX, stripWidth]
    push_cast
    field_simp
    ring

/-- Witness of C21 (amended): in the built-in configuration over the reals
(`numRays = 120`) on a canvas `800` wide, the last strip ends at
`viewX + viewWidth + 1`. -/
theorem column_geometry_witness :
    stripX (viewX 800 : ℝ) (viewWidth 800)
        (AdvancedRayCaster.new (⟨Real.cos, Real.sin, Real.sqrt, Real.pi⟩ : Libm ℝ)).numRays
        ((AdvancedRayCaster.new (⟨Real.cos, Real.sin, Real.sqrt, Real.pi⟩ : Libm ℝ)).numRays - 1)
      + (stripWidth (viewWidth 800 : ℝ)
          (AdvancedRayCaster.new (⟨Real.cos, Real.sin, Real.sqrt, Real.pi⟩ : Libm ℝ)).numRays + 1)
      = (viewX 800 : ℝ) + viewWidth 800 + 1 :=
  (column_geometry (⟨Real.cos, Real.sin, Real.sqrt, Real.pi⟩ : Libm ℝ)
    (AdvancedRayCaster.new ⟨Real.cos, Real.sin, Real.sqrt, Real.pi⟩) 800 600).2.2.2.2
    (by
      show (0 : Int) < 120
      norm_num)

end Projector

/-! ## The fractals -/

section Fractals

variable {α : Type} [LinearOrderedField α] [FloorRing α]

/-- C24 (Sierpinski recursion): for every depth `n ≥ 0`, every triangle and
every colour, `drawSierpinskiTriangle` returns as soon as it is given more
than `n` nested calls, having pushed exactly `3 ^ n` filled triangles on the
canvas (the triangle passed, with the colour passed, at depth `0`), all of the
same fill colour and of the alpha passed. -/
theorem sierpinski_recursion (n fuel : Nat) (hfuel : n < fuel)
    (canvas : List (FilledTriangle α)) (a b c : Point2D α) (r g blue alpha : Nat) :
    ∃ tris : List (FilledTriangle α),
      drawSierpinskiTriangle fuel canvas a b c (n : Int) r g blue alpha = some (canvas ++ tris)
        ∧ tris.length = 3 ^ n
        ∧ (n = 0 → tris = [⟨a, b, c, r, g, blue, alpha⟩])
        ∧ ∃ col : Nat × Nat × Nat, ∀ t ∈ tris, (t.r, t.g, t.blue) = col ∧ t.alpha = alpha := by
  obtain ⟨col, hcol⟩ := @drawSierpinskiTriangle_spec α _ _ n r g blue
  obtain ⟨tris, h1, h2, h3⟩ := hcol fuel canvas a b c alpha hfuel
  refine ⟨tris, h1, h2, ?_, col, h3⟩
  intro hn
  subst hn
  obtain ⟨k, rfl⟩ : ∃ k, fuel = k + 1 := ⟨fuel - 1, by omega⟩
  have h0 : drawSierpinskiTriangle (k + 1) canvas a b c ((0 : Nat) : Int) r g blue alpha
      = some (canvas ++ [⟨a, b, c, r, g, blue, alpha⟩]) := by
    simp [drawSierpinskiTriangle]
  rw [h0] at h1
  exact (List.append_cancel_left (Option.some.inj h1)).symm

/-- Witness of C24: depth `2` on an empty canvas over the rationals, with the
colour of the example. -/
theorem sierpinski_recursion_witness :
    ∃ tris : List (FilledTriangle ℚ),
      drawSierpinskiTriangle 3 [] ⟨0, 0⟩ ⟨4, 0⟩ ⟨2, 4⟩ ((2 : Nat) : Int) 255 150 100 200
          = some ([] ++ tris)
        ∧ tris.length = 3 ^ 2
        ∧ (2 = 0 → tris = [⟨⟨0, 0⟩, ⟨4, 0⟩, ⟨2, 4⟩, 255, 150, 100, 200⟩])
        ∧ ∃ col : Nat × Nat × Nat, ∀ t ∈ tris, (t.r, t.g, t.blue) = col ∧ t.alpha = 200 :=
  sierpinski_recursion 2 3 (by norm_num) [] ⟨0, 0⟩ ⟨4, 0⟩ ⟨2, 4⟩ 255 150 100 200

end Fractals

end ThorVG
